import Mathlib

set_option maxHeartbeats 1000000
set_option linter.unusedVariables false

/-!
Verification development for `src/construct_data/robust_crawl_to_jsonl.py`
(FlashRAG site crawler).  The Python source is shallowly embedded: URLs and
text are `List Char`; the stdlib helpers the source calls (`urllib.parse`,
`os.path.splitext`, `str.strip`, ...) are modelled from CPython 3.11.6
semantics; external capabilities (HTTP transport, BeautifulSoup extraction,
robots, sitemap, regex search, SHA1) are oracle parameters of the model.
-/

abbrev Str := List Char

def s2l (s : String) : Str := s.data

/-- Characters removed by CPython `urlsplit` before any parsing
(`_UNSAFE_URL_BYTES_TO_REMOVE = ["\t", "\r", "\n"]`). -/
def isUnsafeChar (c : Char) : Bool := c = '\t' || c = '\r' || c = '\n'

def removeUnsafe (l : Str) : Str := l.filter (fun c => ¬ isUnsafeChar c)

/-- `_WHATWG_C0_CONTROL_OR_SPACE`: code points 0x00..0x20 inclusive,
stripped from the left of the URL by CPython 3.11 `urlsplit`. -/
def isC0OrSpace (c : Char) : Bool := c.toNat ≤ 32

def lstripC0 (l : Str) : Str := l.dropWhile (fun c => isC0OrSpace c)

/-- Split a list at the first occurrence of `c`: returns the part before and
after; `none` when `c` does not occur.  Models Python `s.find(c)` /
`s.split(c, 1)`. -/
def lsplitChar (c : Char) : Str → Option (Str × Str)
  | [] => none
  | x :: xs =>
    if x = c then some ([], xs)
    else match lsplitChar c xs with
      | some (a, b) => some (x :: a, b)
      | none => none

/-- Split a list at the last occurrence of `c`.  Models Python `s.rfind(c)`. -/
def rsplitChar (c : Char) : Str → Option (Str × Str)
  | [] => none
  | x :: xs =>
    match rsplitChar c xs with
    | some (a, b) => some (x :: a, b)
    | none => if x = c then some ([], xs) else none

/-- `scheme_chars` of `urllib.parse`. -/
def isSchemeChar (c : Char) : Bool :=
  ('a' ≤ c && c ≤ 'z') || ('A' ≤ c && c ≤ 'Z') || ('0' ≤ c && c ≤ '9') ||
  c = '+' || c = '-' || c = '.'

/-- ASCII lowercasing, as applied by `str.lower` to the scheme (whose
characters are all ASCII once the scheme-chars check passed). -/
def asciiLower (c : Char) : Char :=
  if 'A' ≤ c ∧ c ≤ 'Z' then Char.ofNat (c.toNat + 32) else c

def isAsciiAlpha (c : Char) : Bool :=
  ('a' ≤ c && c ≤ 'z') || ('A' ≤ c && c ≤ 'Z')

def headIsAsciiAlpha : Str → Bool
  | [] => false
  | c :: _ => isAsciiAlpha c

/-- Scheme recognition of CPython 3.11 `urlsplit`: `i = url.find(':')`; if
`i > 0` and `url[0]` is an ASCII letter and every character before the colon
is a scheme char, the scheme is split off and lowercased, else the url is
left whole. -/
def splitScheme (url : Str) : Str × Str :=
  match lsplitChar ':' url with
  | none => ([], url)
  | some (pre, post) =>
    if pre ≠ [] ∧ headIsAsciiAlpha pre ∧ pre.all (fun c => isSchemeChar c) then
      (pre.map asciiLower, post)
    else ([], url)

def isNetlocStop (c : Char) : Bool := c = '/' || c = '?' || c = '#'

/-- `_splitnetloc(url, 2)`: the netloc runs until the first of `/?#`.
Input is the url with the leading `//` already dropped. -/
def splitNetloc (rest : Str) : Str × Str :=
  (rest.takeWhile (fun c => ¬ isNetlocStop c), rest.dropWhile (fun c => ¬ isNetlocStop c))

/-- The mismatched-bracket check of `urlsplit` that raises
`ValueError("Invalid IPv6 URL")`. -/
def badNetloc (n : Str) : Bool :=
  (n.contains '[' && !(n.contains ']')) || (n.contains ']' && !(n.contains '['))

/-- CPython 3.11.6 `urlsplit` (scheme, netloc, path, query, fragment).
`.error ()` models an escaping `ValueError`: a mismatched IPv6 bracket, or a
rejection by the two netloc validators.  Those validators —
`_check_bracketed_host` (which runs `ipaddress.ip_address`) and
`_checknetloc` (which runs `unicodedata.normalize`) — are pure functions of
the netloc delegated to external library code, so they are modelled by the
oracle `nOK : Str → Bool` ("the netloc validators do not raise"); every
theorem below holds for an arbitrary `nOK`. -/
def urlsplitE (nOK : Str → Bool) (url0 : Str) : Except Unit (Str × Str × Str × Str × Str) :=
  let url1 := removeUnsafe (lstripC0 url0)
  let sp := splitScheme url1
  let scheme := sp.1
  let u2 := sp.2
  let nl := if u2.take 2 = ['/', '/'] then splitNetloc (u2.drop 2) else ([], u2)
  let netloc := nl.1
  let u3 := nl.2
  if badNetloc netloc then .error () else
  if ¬ nOK netloc then .error () else
  let u4 := if u3.contains '#' then u3.takeWhile (fun c => c ≠ '#') else u3
  let fragment := if u3.contains '#' then (u3.dropWhile (fun c => c ≠ '#')).tail else []
  let path := if u4.contains '?' then u4.takeWhile (fun c => c ≠ '?') else u4
  let query := if u4.contains '?' then (u4.dropWhile (fun c => c ≠ '?')).tail else []
  .ok (scheme, netloc, path, query, fragment)

/-- `urllib.parse._splitparams`. -/
def splitparams (url : Str) : Str × Str :=
  match rsplitChar '/' url with
  | some (a, b) =>
    -- i = url.find(';', url.rfind('/')): a semicolon in the last segment
    match lsplitChar ';' b with
    | some (b1, b2) => (a ++ '/' :: b1, b2)
    | none => (url, [])
  | none =>
    match lsplitChar ';' url with
    | some (c1, c2) => (c1, c2)
    | none => (url, [])

structure Parsed where
  scheme : Str
  netloc : Str
  path : Str
  params : Str
  query : Str
  fragment : Str
deriving DecidableEq, Repr

/-- `uses_params` of `urllib.parse` (CPython 3.11.6). -/
def uses_params : List Str :=
  [[], s2l "ftp", s2l "hdl", s2l "prospero", s2l "http", s2l "imap",
   s2l "https", s2l "shttp", s2l "rtsp", s2l "rtsps", s2l "rtspu",
   s2l "sip", s2l "sips", s2l "mms", s2l "sftp", s2l "tel"]

/-- `uses_netloc` of `urllib.parse` (CPython 3.11.6). -/
def uses_netloc : List Str :=
  [[], s2l "ftp", s2l "http", s2l "gopher", s2l "nntp", s2l "telnet",
   s2l "imap", s2l "wais", s2l "file", s2l "mms", s2l "https", s2l "shttp",
   s2l "snews", s2l "prospero", s2l "rtsp", s2l "rtsps", s2l "rtspu",
   s2l "rsync", s2l "svn", s2l "svn+ssh", s2l "sftp", s2l "nfs",
   s2l "git", s2l "git+ssh", s2l "ws", s2l "wss"]

/-- CPython 3.11.6 `urlparse`: `urlsplit` plus the params split on the path. -/
def urlparseE (nOK : Str → Bool) (url : Str) : Except Unit Parsed := do
  let (scheme, netloc, path0, query, fragment) ← urlsplitE nOK url
  let pp :=
    if uses_params.contains scheme && path0.contains ';' then splitparams path0
    else (path0, [])
  .ok ⟨scheme, netloc, pp.1, pp.2, query, fragment⟩

/-- CPython 3.11.6 `urlunsplit`. -/
def urlunsplit (scheme netloc url query fragment : Str) : Str :=
  let url1 :=
    if netloc ≠ [] ∨ (scheme ≠ [] ∧ uses_netloc.contains scheme ∧ url.take 2 ≠ ['/', '/']) then
      '/' :: '/' :: (netloc ++ (if url ≠ [] ∧ url.take 1 ≠ ['/'] then '/' :: url else url))
    else url
  let url2 := if scheme ≠ [] then scheme ++ ':' :: url1 else url1
  let url3 := if query ≠ [] then url2 ++ '?' :: query else url2
  if fragment ≠ [] then url3 ++ '#' :: fragment else url3

/-- CPython `urlunparse`. -/
def urlunparse (p : Parsed) : Str :=
  let u := if p.params ≠ [] then p.path ++ ';' :: p.params else p.path
  urlunsplit p.scheme p.netloc u p.query p.fragment

/-- `posixpath.splitext`. -/
def splitext (p : Str) : Str × Str :=
  match rsplitChar '.' p with
  | none => (p, [])
  | some (a, b) =>
    if b.contains '/' then (p, [])
    else
      let tl := match rsplitChar '/' a with
        | some x => x.2
        | none => a
      if tl.all (fun c => c = '.') then (p, []) else (a, '.' :: b)

def ALLOWED_SCHEMES : List Str := [s2l "http", s2l "https"]

/-- `normalize_url` from the source: canonicalize a URL (strip query and
fragment, normalize a directory path to end with a slash); returns `""` for
a non-http(s) scheme.  `.error ()` models an escaping `ValueError` from
`urlparse`. -/
def normalize_url (nOK : Str → Bool) (url : Str) : Except Unit Str := do
  let p ← urlparseE nOK url
  if ¬ ALLOWED_SCHEMES.contains p.scheme then .ok [] else
  let path0 := if p.path = [] then ['/'] else p.path
  let ext := (splitext path0).2
  let path1 :=
    if ext = [] ∧ path0.getLast? ≠ some '/' then path0 ++ ['/'] else path0
  .ok (urlunparse ⟨p.scheme, p.netloc, path1, p.params, [], []⟩)

/-- `is_within_base` from the source. -/
def is_within_base (nOK : Str → Bool) (url : Str) (base_netloc base_path : Str) :
    Except Unit Bool := do
  let p ← urlparseE nOK url
  .ok (p.netloc = base_netloc ∧ p.path.take base_path.length = base_path)

def pyLstripSlash (l : Str) : Str := l.dropWhile (fun c => c = '/')

def pyRstripSlash (l : Str) : Str := (l.reverse.dropWhile (fun c => c = '/')).reverse

/-- Python `s.replace("..", "_")`: left-to-right non-overlapping replacement. -/
def replaceDotDot : Str → Str
  | [] => []
  | '.' :: '.' :: rest => '_' :: replaceDotDot rest
  | c :: rest => c :: replaceDotDot rest

/-- `url_to_relpath` from the source: a relative artifact path for a URL
(no leading slash, directory URLs mapped to `index.html`, `..` squashed). -/
def url_to_relpath (nOK : Str → Bool) (url : Str) (base_path : Str) : Except Unit Str := do
  let p ← urlparseE nOK url
  let path := p.path
  let rel :=
    if ¬ (path.take base_path.length = base_path) then pyLstripSlash path
    else pyLstripSlash (path.drop base_path.length)
  let root_like := rel = [] ∨ rel.getLast? = some '/'
  let rel2 :=
    if root_like ∨ (splitext rel).2 = [] then
      pyLstripSlash (pyRstripSlash rel ++ s2l "/index.html")
    else rel
  let rel3 := replaceDotDot rel2
  .ok (if rel3 ≠ [] then rel3 else s2l "index.html")

/-- A trivial instance of the netloc-validator oracle, used for concrete
witness computations (it accepts every netloc). -/
def nTrue : Str → Bool := fun _ => true

/-- Splitting a path string on `/`. -/
def splitSlash : Str → List Str
  | [] => [[]]
  | c :: rest =>
    if c = '/' then [] :: splitSlash rest
    else match splitSlash rest with
      | s :: ss => (c :: s) :: ss
      | [] => [[c]]

/-- `pathlib.PurePosixPath` normalization of a relative path: empty and `.`
components are dropped at construction.  The crawler's artifact paths are
relative and contain no `..` component (see `url_to_relpath`), and the
output tree contains no symlinks the model could see, so `Path.resolve`
performs exactly this normalization below the run directory. -/
def pathNorm (rel : Str) : Str :=
  let parts := (splitSlash rel).filter (fun p => p ≠ [] ∧ p ≠ ['.'])
  match parts with
  | [] => ['.']
  | p :: ps => p ++ (ps.map (fun q => '/' :: q)).flatten

/-- `pathlib.PurePath.with_suffix(".txt")` on a normalized relative path
string: the suffix of the final component (a dot that is neither leading
nor trailing in that component) is replaced, otherwise `.txt` is
appended. -/
def withSuffixTxt (rel : Str) : Str :=
  let dn : Str × Str :=
    match rsplitChar '/' rel with
    | some (a, b) => (a ++ ['/'], b)
    | none => ([], rel)
  let name := dn.2
  let suf : Str :=
    match rsplitChar '.' name with
    | some (a, b) => if a ≠ [] ∧ b ≠ [] then '.' :: b else []
    | none => []
  dn.1 ++ name.take (name.length - suf.length) ++ s2l ".txt"

/-- Python `str.isspace` characters (the whitespace set stripped by
`str.strip`). -/
def pyIsSpace (c : Char) : Bool :=
  c = ' ' || c = '\t' || c = '\n' || c = '\r' || c = '\x0b' || c = '\x0c' ||
  (c.toNat ≥ 0x1c && c.toNat ≤ 0x1f) || c.toNat = 0x85 || c.toNat = 0xa0 ||
  c.toNat = 0x1680 || (c.toNat ≥ 0x2000 && c.toNat ≤ 0x200a) ||
  c.toNat = 0x2028 || c.toNat = 0x2029 || c.toNat = 0x202f ||
  c.toNat = 0x205f || c.toNat = 0x3000

/-- Python `str.strip()`. -/
def pyStrip (l : Str) : Str :=
  ((l.dropWhile pyIsSpace).reverse.dropWhile pyIsSpace).reverse

/-- `re.split(r"\n\x7b2,\x7d", text)`: split at each maximal run of two or
more newlines.  The first argument accumulates the current segment in
reverse. -/
def splitNNF : Nat → Str → Str → List Str
  | 0, acc, _ => [acc.reverse]
  | _ + 1, acc, [] => [acc.reverse]
  | fuel + 1, acc, c :: rest =>
    if c = '\n' ∧ rest.head? = some '\n' then
      acc.reverse :: splitNNF fuel [] (rest.dropWhile (fun c => c = '\n'))
    else
      splitNNF fuel (c :: acc) rest

/-- The fuel `text.length + 1` can never run out: every recursive step of
`splitNNF` removes at least one character while spending one unit. -/
def splitNN (acc text : Str) : List Str := splitNNF (text.length + 1) acc text

/-- Python `buf[-overlap:]` (the slice index is the negation of `overlap`). -/
def pyTailSlice (l : Str) (k : Int) : Str :=
  if 0 < k then l.drop (l.length - k.toNat) else l.drop (-k).toNat

/-- The paragraph-packing loop of `chunk_text`: arguments are the remaining
paragraphs, the running buffer and the accumulated chunks. -/
def chunkLoop (maxChars overlap : Int) : List Str → Str → List Str → List Str
  | [], buf, chunks => if buf ≠ [] then chunks ++ [buf] else chunks
  | p :: ps, buf, chunks =>
    if (buf.length : Int) + p.length + 1 ≤ maxChars then
      chunkLoop maxChars overlap ps (pyStrip (buf ++ '\n' :: p)) chunks
    else
      let chunks1 := if buf ≠ [] then chunks ++ [buf] else chunks
      let buf1 :=
        if overlap ≠ 0 ∧ (buf.length : Int) > overlap then
          pyStrip (pyTailSlice buf overlap ++ '\n' :: p)
        else p
      chunkLoop maxChars overlap ps buf1 chunks1

/-- `chunk_text` from the source: split on blank-line paragraph boundaries
and greedily pack into chunks of at most `maxChars` characters with
`overlap` characters of overlap. -/
def chunk_text (text : Str) (maxChars overlap : Int) : List Str :=
  if maxChars ≤ 0 then (if text ≠ [] then [text] else []) else
  let paras := ((splitNN [] text).map pyStrip).filter (fun p => p ≠ [])
  let chunks := chunkLoop maxChars overlap paras [] []
  if chunks ≠ [] then chunks
  else if pyStrip text = [] then []
  else [text.take maxChars.toNat]

/-- `hashlib.sha1(...).hexdigest()` is an external capability; the crawler
model takes the digest function as an oracle parameter `H`. -/
def natStr (n : Nat) : Str := Nat.toDigits 10 n

-- sanity examples (compile-time checks of the embedding on concrete data)
example : normalize_url nTrue (s2l "http://h/a?x#y") = .ok (s2l "http://h/a/") := by rfl
example : normalize_url nTrue (s2l "http://h/a.html?x") = .ok (s2l "http://h/a.html") := by rfl
example : normalize_url nTrue (s2l "ftp://h/a") = .ok [] := by rfl
example : normalize_url nTrue (s2l "http://h") = .ok (s2l "http://h/") := by rfl
example : normalize_url nTrue (s2l "http:a") = .ok (s2l "http:///a/") := by rfl
example : url_to_relpath nTrue (s2l "http://h/doc/a/") (s2l "/doc/") =
    .ok (s2l "a/index.html") := by rfl
example : url_to_relpath nTrue (s2l "http://h/doc/x.html") (s2l "/doc/") =
    .ok (s2l "x.html") := by rfl

/-! ## Crawler model

State and one-run semantics of class `Crawler` and `main`.  External
collaborators (HTTP transport with its retry stack, BeautifulSoup
extraction, robots evaluation, link enumeration, `urljoin`, sitemap
discovery, SHA1) are oracle fields of `Env`; everything else is translated
from the source.  File writers are modelled by the lists of records
appended during the run. -/

structure FullRec where
  id : Str
  url : Str
  title : Str
  chunkIndex : Nat
  chunkCount : Nat
  contents : Str
  hash : Str
deriving DecidableEq, Repr

structure MinRec where
  id : Str
  contents : Str
deriving DecidableEq, Repr

structure ManiRow where
  id : Str
  url : Str
  title : Str
  htmlPath : Str
  txtPath : Str
  chars : Nat
deriving DecidableEq, Repr

structure Stats where
  pages_fetched : Nat
  pages_skipped : Nat
  pages_failed : Nat
  chunks_written : Nat
  chunks_deduped : Nat
  queue_peek : Nat
deriving DecidableEq, Repr

/-- The append-only output streams opened by the crawler; each list holds
the records appended during the current run. -/
structure Store where
  chunkHashes : List Str
  fullLines : List FullRec
  minLines : List MinRec
  maniRows : List ManiRow
deriving DecidableEq, Repr

structure CrawlState where
  visited : List Str
  queue : List Str
  pageId : Nat
  stats : Stats
  store : Store
deriving DecidableEq, Repr

/-- Result of one call into the transport capability (`self.session.get`):
an HTTP response or a raised transport exception. -/
inductive TranspResult where
  | resp (status : Nat) (body : Str)
  | exn
deriving DecidableEq, Repr

/-- Observable events of a run, used to state trace properties. -/
inductive Ev where
  | fetchCall (url : Str)
  | fetchFailed (url : Str)
  | chunkProduced (h : Str)
  | pageDone (id : Nat)
  | statsWritten
deriving DecidableEq, Repr

structure Env where
  nOK : Str → Bool
  baseNetloc : Str
  basePath : Str
  maxPages : Nat
  chunkSize : Int
  chunkOverlap : Int
  includeRe : Option (Str → Bool)
  excludeRe : Option (Str → Bool)
  canFetchO : Str → Bool
  transport : Str → TranspResult
  extractO : Str → Except Unit (Str × Str)
  linksO : Str → List Str
  joinO : Str → Str → Str
  H : Str → Str
  saveHtml : Bool
  saveText : Bool

/-- `Crawler.fetch`: 2xx yields the body, any other status or any raised
exception yields `None` (the method catches everything). -/
def fetchModel (transport : Str → TranspResult) (url : Str) : Option Str :=
  match transport url with
  | .resp s b => if 200 ≤ s ∧ s < 300 then some b else none
  | .exn => none

/-- One iteration of the chunk loop in `Crawler.write_records`: dedup by
hash, append to both streams when unseen.  Returns the new store and the
number (0 or 1) added to `deduped`. -/
def writeChunk (H : Str → Str) (pageId total : Nat) (url title : Str)
    (store : Store) (ci : Nat) (ck : Str) : Store × Nat :=
  let h := H ck
  if store.chunkHashes.contains h then (store, 1)
  else
    let cid :=
      if total > 1 then s2l "page-" ++ natStr pageId ++ s2l "-c" ++ natStr ci
      else s2l "page-" ++ natStr pageId
    ({ store with
        chunkHashes := store.chunkHashes ++ [h],
        fullLines := store.fullLines ++
          [⟨cid, url, title, ci, total, ck, h⟩],
        minLines := store.minLines ++ [⟨cid, ck⟩] }, 0)

/-- `Crawler.write_records`: chunk, dedup, write both JSONL streams, then
one manifest row; returns `(store, total, deduped, chunk events)`.  A page
with no chunks returns `(0, 0)` before any write. -/
def write_records (env : Env) (store : Store) (pageId : Nat)
    (url title text : Str) (htmlRel txtRel : Option Str) :
    Store × Nat × Nat × List Ev :=
  let chunks := if text ≠ [] then chunk_text text env.chunkSize env.chunkOverlap else []
  if chunks = [] then (store, 0, 0, []) else
  let total := chunks.length
  let fin := chunks.enum.foldl
    (fun (acc : Store × Nat) (p : Nat × Str) =>
      let r := writeChunk env.H pageId total url title acc.1 p.1 p.2
      (r.1, acc.2 + r.2))
    (store, 0)
  let row : ManiRow :=
    { id := s2l "page-" ++ natStr pageId, url := url, title := title,
      htmlPath := match htmlRel with | some r => s2l "html/" ++ r | none => [],
      txtPath := match txtRel with | some r => s2l "text/" ++ r | none => [],
      chars := text.length }
  ({ fin.1 with maniRows := fin.1.maniRows ++ [row] }, total, fin.2,
   chunks.map (fun ck => Ev.chunkProduced (env.H ck)))

/-- `HTML_EXTS` from the source (`""` for clean directory URLs). -/
def HTML_EXTS : List Str :=
  [s2l ".html", s2l ".htm", s2l ".md", s2l ".txt", s2l ".php", s2l ".aspx", []]

/-- The per-href decision of `Crawler.enqueue_links`: `some u` means the
normalized URL `u` is appended to the queue, `none` means the href is
skipped; `.error` models an escaping `ValueError` from `urlparse`. -/
def linkDecision (env : Env) (visited : List Str) (pageUrl href0 : Str) :
    Except Unit (Option Str) := do
  let href := pyStrip href0
  if href.take 7 = s2l "mailto:" ∨ href.take 11 = s2l "javascript:" then .ok none else
  let absUrl ← normalize_url env.nOK (env.joinO pageUrl href)
  if absUrl = [] ∨ absUrl ∈ visited then .ok none else
  let within ← is_within_base env.nOK absUrl env.baseNetloc env.basePath
  if ¬ within then .ok none else do
  let pp ← urlparseE env.nOK absUrl
  let ext := ((splitext pp.path).2).map asciiLower
  if ¬ HTML_EXTS.contains ext then .ok none else
  match env.includeRe with
  | some f =>
    if ¬ f absUrl then .ok none else
    match env.excludeRe with
    | some g => if g absUrl then .ok none else .ok (some absUrl)
    | none => .ok (some absUrl)
  | none =>
    match env.excludeRe with
    | some g => if g absUrl then .ok none else .ok (some absUrl)
    | none => .ok (some absUrl)

/-- `Crawler.enqueue_links`: iterate the page's hrefs, appending each
accepted URL to the queue (the visited set is only read). -/
def enqueue_links (env : Env) (visited : List Str) (queue : List Str)
    (html pageUrl : Str) : Except Unit (List Str) :=
  (env.linksO html).foldlM
    (fun q href => do
      let d ← linkDecision env visited pageUrl href
      match d with
      | some u => .ok (q ++ [u])
      | none => .ok q)
    queue

/-- `Crawler.run`: the crawl loop.  Returns the final state, the event
trace, and `some ()` when an exception escaped the loop (extraction or
`urlparse` raising past the page boundary); `Ev.statsWritten` is emitted
only on the normal loop exit (`self.write_stats()` after the `while`). -/
def runLoop (env : Env) (st : CrawlState) : CrawlState × List Ev × Option Unit :=
  if hcond : st.queue ≠ [] ∧ st.visited.length < env.maxPages then
    match hq : st.queue with
    | [] => (st, [], none)
    | url :: qrest =>
      let st0 : CrawlState := { st with queue := qrest }
      if url ∈ st0.visited then runLoop env st0
      else if ¬ env.canFetchO url then
        runLoop env
          { st0 with stats.pages_skipped := st0.stats.pages_skipped + 1 }
      else
        let st1 : CrawlState :=
          { st0 with
              visited := st0.visited ++ [url],
              stats.queue_peek := max st0.stats.queue_peek st0.queue.length }
        match fetchModel env.transport url with
        | none =>
          let r := runLoop env
            { st1 with stats.pages_failed := st1.stats.pages_failed + 1 }
          (r.1, .fetchCall url :: .fetchFailed url :: r.2.1, r.2.2)
        | some html =>
          match url_to_relpath env.nOK url env.basePath with
          | .error e => (st1, [.fetchCall url], some e)
          | .ok rel =>
            match env.extractO html with
            | .error e => (st1, [.fetchCall url], some e)
            | .ok (text, title) =>
              let htmlRel := if env.saveHtml then some (pathNorm rel) else none
              let txtRel := if env.saveText then some (withSuffixTxt (pathNorm rel)) else none
              let wr := write_records env st1.store st1.pageId url title text htmlRel txtRel
              let st2 : CrawlState :=
                { st1 with
                    store := wr.1,
                    stats := { st1.stats with
                      pages_fetched := st1.stats.pages_fetched + 1,
                      chunks_written := st1.stats.chunks_written + wr.2.1,
                      chunks_deduped := st1.stats.chunks_deduped + wr.2.2.1 } }
              match enqueue_links env st2.visited st2.queue html url with
              | .error e => (st2, .fetchCall url :: wr.2.2.2, some e)
              | .ok q1 =>
                let st3 : CrawlState :=
                  { st2 with queue := q1, pageId := st2.pageId + 1 }
                let r := runLoop env st3
                (r.1,
                 .fetchCall url :: (wr.2.2.2 ++ [Ev.pageDone st2.pageId]) ++ r.2.1,
                 r.2.2)
  else
    (st, [Ev.statsWritten], none)
termination_by (env.maxPages - st.visited.length, st.queue.length)
decreasing_by
  · apply Prod.Lex.right
    simp only [hq, List.length_cons]
    omega
  · apply Prod.Lex.right
    simp only [hq, List.length_cons]
    omega
  · apply Prod.Lex.left
    simp only [List.length_append, List.length_cons]
    omega
  · apply Prod.Lex.left
    simp only [List.length_append, List.length_cons]
    omega

/-- `read_existing_urls_from_manifest`: the set of values of the manifest's
`url` column (a set, modelled as a duplicate-free list). -/
def read_existing_urls (rows : List ManiRow) : List Str :=
  rows.foldl (fun acc r => if r.url ∈ acc then acc else acc ++ [r.url]) []

/-- `Crawler.seed_queue`: the base URL, then (when sitemap seeding is on)
every sitemap candidate that normalizes to a nonempty in-base URL. -/
def seedQueue (nOK : Str → Bool) (baseUrl baseNetloc basePath : Str)
    (useSitemap : Bool) (sitemapO : List Str) : Except Unit (List Str) :=
  if useSitemap then
    sitemapO.foldlM
      (fun q link => do
        let n ← normalize_url nOK link
        if n = [] then .ok q else do
          let w ← is_within_base nOK n baseNetloc basePath
          .ok (if w then q ++ [n] else q))
      [baseUrl]
  else .ok [baseUrl]

/-- Inputs of `Crawler.__init__` that shape the initial state: the raw base
URL, the resume flag, the pre-existing output files (`none` when the file
does not exist), and sitemap seeding. -/
structure InitConfig where
  baseUrlArg : Str
  resume : Bool
  priorMani : Option (List ManiRow)
  priorFull : Option (List FullRec)
  useSitemap : Bool
  sitemapO : List Str

/-- `Crawler.__init__`: normalize the base URL (raising on an empty
result), derive the base netloc/path, preload `visited` and `page_id` on
resume, and seed the queue.  Returns `(base_netloc, base_path, state)`. -/
def initCrawler (nOK : Str → Bool) (cfg : InitConfig) :
    Except Unit (Str × Str × CrawlState) := do
  let base ← normalize_url nOK cfg.baseUrlArg
  if base = [] then .error () else do
  let bp ← urlparseE nOK base
  let baseNetloc := bp.netloc
  let basePath := if bp.path.getLast? = some '/' then bp.path else bp.path ++ ['/']
  let visited0 : List Str :=
    match cfg.resume, cfg.priorMani with
    | true, some rows => read_existing_urls rows
    | _, _ => []
  let pageId0 : Nat :=
    match cfg.resume, cfg.priorMani, cfg.priorFull with
    | true, some _, some lines => lines.length
    | _, _, _ => 0
  let q ← seedQueue nOK base baseNetloc basePath cfg.useSitemap cfg.sitemapO
  .ok (baseNetloc, basePath,
    ⟨visited0, q, pageId0, ⟨0, 0, 0, 0, 0, 0⟩, ⟨[], [], [], []⟩⟩)

/-- `main`: construct the crawler and run it inside `try/except`; any
exception is logged and the process exits with code 1 (no further output);
otherwise exit code 0.  Returns the event trace and the exit code. -/
def mainModel (env0 : Env) (cfg : InitConfig) : List Ev × Nat :=
  match initCrawler env0.nOK cfg with
  | .error _ => ([], 1)
  | .ok (bn, bp, st) =>
    let r := runLoop { env0 with baseNetloc := bn, basePath := bp } st
    match r.2.2 with
    | some _ => (r.2.1, 1)
    | none => (r.2.1, 0)

/-- `Crawler._handle_sigint`: flush and close the writers, write
`stats.json`, and exit with code 130. -/
def handleSigint : List Ev × Nat := ([Ev.statsWritten], 130)
/-- The state after popping the queue head. -/
def popSt (st : CrawlState) (qrest : List Str) : CrawlState := { st with queue := qrest }

/-- The state after a robots rejection. -/
def robSt (st : CrawlState) (qrest : List Str) : CrawlState :=
  { st with queue := qrest,
            stats := { st.stats with pages_skipped := st.stats.pages_skipped + 1 } }

/-- The state after marking the popped URL visited (`self.visited.add`,
`queue_peek` update). -/
def visSt (st : CrawlState) (url : Str) (qrest : List Str) : CrawlState :=
  { st with queue := qrest, visited := st.visited ++ [url],
            stats := { st.stats with
              queue_peek := max st.stats.queue_peek qrest.length } }

/-- `visSt` followed by the failed-fetch counter. -/
def failSt (st : CrawlState) (url : Str) (qrest : List Str) : CrawlState :=
  { visSt st url qrest with
      stats := { (visSt st url qrest).stats with
        pages_failed := (visSt st url qrest).stats.pages_failed + 1 } }

theorem runLoop_stop (env : Env) (st : CrawlState)
    (h : ¬ (st.queue ≠ [] ∧ st.visited.length < env.maxPages)) :
    runLoop env st = (st, [Ev.statsWritten], none) := by
  rw [runLoop]
  simp only [dif_neg h]

theorem runLoop_skip (env : Env) (st : CrawlState) (url : Str) (qrest : List Str)
    (hq : st.queue = url :: qrest) (hlt : st.visited.length < env.maxPages)
    (hmem : url ∈ st.visited) :
    runLoop env st = runLoop env (popSt st qrest) := by
  rw [runLoop]
  simp only [dif_pos (And.intro (show st.queue ≠ [] from by rw [hq]; exact List.cons_ne_nil _ _) hlt)]
  split
  · next heq => rw [hq] at heq; cases heq
  · next u2 q2 heq =>
    rw [hq] at heq
    injection heq with h1 h2
    subst h1; subst h2
    rw [if_pos hmem]
    rfl

theorem runLoop_robots (env : Env) (st : CrawlState) (url : Str) (qrest : List Str)
    (hq : st.queue = url :: qrest) (hlt : st.visited.length < env.maxPages)
    (hmem : url ∉ st.visited) (hrob : ¬ env.canFetchO url = true) :
    runLoop env st = runLoop env (robSt st qrest) := by
  rw [runLoop]
  simp only [dif_pos (And.intro (show st.queue ≠ [] from by rw [hq]; exact List.cons_ne_nil _ _) hlt)]
  split
  · next heq => rw [hq] at heq; cases heq
  · next u2 q2 heq =>
    rw [hq] at heq
    injection heq with h1 h2
    subst h1; subst h2
    rw [if_neg hmem, if_pos hrob]
    rfl

theorem runLoop_fail (env : Env) (st : CrawlState) (url : Str) (qrest : List Str)
    (hq : st.queue = url :: qrest) (hlt : st.visited.length < env.maxPages)
    (hmem : url ∉ st.visited) (hrob : env.canFetchO url = true)
    (hf : fetchModel env.transport url = none) :
    runLoop env st =
      ((runLoop env (failSt st url qrest)).1,
       Ev.fetchCall url :: Ev.fetchFailed url :: (runLoop env (failSt st url qrest)).2.1,
       (runLoop env (failSt st url qrest)).2.2) := by
  rw [runLoop]
  simp only [dif_pos (And.intro (show st.queue ≠ [] from by rw [hq]; exact List.cons_ne_nil _ _) hlt)]
  split
  · next heq => rw [hq] at heq; cases heq
  · next u2 q2 heq =>
    rw [hq] at heq
    injection heq with h1 h2
    subst h1; subst h2
    rw [if_neg hmem, if_neg (by simpa using hrob), hf]
    rfl


/-- The state and `(total, deduped, events)` after `write_records` and the
stats update of the success path. -/
def recSt (env : Env) (st : CrawlState) (url rel text title : Str) :
    CrawlState × Nat × Nat × List Ev :=
  let wr := write_records env st.store st.pageId url title text
      (if env.saveHtml then some (pathNorm rel) else none)
      (if env.saveText then some (withSuffixTxt (pathNorm rel)) else none)
  let st2 : CrawlState :=
    { st with
        store := wr.1,
        stats := { st.stats with
          pages_fetched := st.stats.pages_fetched + 1,
          chunks_written := st.stats.chunks_written + wr.2.1,
          chunks_deduped := st.stats.chunks_deduped + wr.2.2.1 } }
  (st2, wr.2)

theorem runLoop_relpathErr (env : Env) (st : CrawlState) (url : Str) (qrest : List Str)
    (hq : st.queue = url :: qrest) (hlt : st.visited.length < env.maxPages)
    (hmem : url ∉ st.visited) (hrob : env.canFetchO url = true)
    (html : Str) (hf : fetchModel env.transport url = some html)
    (e : Unit) (hr : url_to_relpath env.nOK url env.basePath = .error e) :
    runLoop env st = (visSt st url qrest, [Ev.fetchCall url], some e) := by
  rw [runLoop]
  simp only [dif_pos (And.intro (show st.queue ≠ [] from by rw [hq]; exact List.cons_ne_nil _ _) hlt)]
  split
  · next heq => rw [hq] at heq; cases heq
  · next u2 q2 heq =>
    rw [hq] at heq
    injection heq with h1 h2
    subst h1; subst h2
    rw [if_neg hmem, if_neg (by simpa using hrob), hf, hr]
    rfl

theorem runLoop_extractErr (env : Env) (st : CrawlState) (url : Str) (qrest : List Str)
    (hq : st.queue = url :: qrest) (hlt : st.visited.length < env.maxPages)
    (hmem : url ∉ st.visited) (hrob : env.canFetchO url = true)
    (html : Str) (hf : fetchModel env.transport url = some html)
    (rel : Str) (hr : url_to_relpath env.nOK url env.basePath = .ok rel)
    (e : Unit) (hx : env.extractO html = .error e) :
    runLoop env st = (visSt st url qrest, [Ev.fetchCall url], some e) := by
  rw [runLoop]
  simp only [dif_pos (And.intro (show st.queue ≠ [] from by rw [hq]; exact List.cons_ne_nil _ _) hlt)]
  split
  · next heq => rw [hq] at heq; cases heq
  · next u2 q2 heq =>
    rw [hq] at heq
    injection heq with h1 h2
    subst h1; subst h2
    rw [if_neg hmem, if_neg (by simpa using hrob)]
    simp only [hf, hr, hx]
    rfl

theorem runLoop_enqErr (env : Env) (st : CrawlState) (url : Str) (qrest : List Str)
    (hq : st.queue = url :: qrest) (hlt : st.visited.length < env.maxPages)
    (hmem : url ∉ st.visited) (hrob : env.canFetchO url = true)
    (html : Str) (hf : fetchModel env.transport url = some html)
    (rel : Str) (hr : url_to_relpath env.nOK url env.basePath = .ok rel)
    (text title : Str) (hx : env.extractO html = .ok (text, title))
    (e : Unit)
    (he : enqueue_links env (st.visited ++ [url]) qrest html url = .error e) :
    runLoop env st =
      ((recSt env (visSt st url qrest) url rel text title).1,
       Ev.fetchCall url :: (recSt env (visSt st url qrest) url rel text title).2.2.2,
       some e) := by
  rw [runLoop]
  simp only [dif_pos (And.intro (show st.queue ≠ [] from by rw [hq]; exact List.cons_ne_nil _ _) hlt)]
  split
  · next heq => rw [hq] at heq; cases heq
  · next u2 q2 heq =>
    rw [hq] at heq
    injection heq with h1 h2
    subst h1; subst h2
    rw [if_neg hmem, if_neg (by simpa using hrob)]
    simp only [hf, hr, hx]
    rw [he]
    rfl

theorem runLoop_step (env : Env) (st : CrawlState) (url : Str) (qrest : List Str)
    (hq : st.queue = url :: qrest) (hlt : st.visited.length < env.maxPages)
    (hmem : url ∉ st.visited) (hrob : env.canFetchO url = true)
    (html : Str) (hf : fetchModel env.transport url = some html)
    (rel : Str) (hr : url_to_relpath env.nOK url env.basePath = .ok rel)
    (text title : Str) (hx : env.extractO html = .ok (text, title))
    (q1 : List Str)
    (he : enqueue_links env (st.visited ++ [url]) qrest html url = .ok q1) :
    runLoop env st =
      ((runLoop env { (recSt env (visSt st url qrest) url rel text title).1 with
          queue := q1, pageId := st.pageId + 1 }).1,
       Ev.fetchCall url ::
         ((recSt env (visSt st url qrest) url rel text title).2.2.2 ++ [Ev.pageDone st.pageId]) ++
         (runLoop env { (recSt env (visSt st url qrest) url rel text title).1 with
            queue := q1, pageId := st.pageId + 1 }).2.1,
       (runLoop env { (recSt env (visSt st url qrest) url rel text title).1 with
          queue := q1, pageId := st.pageId + 1 }).2.2) := by
  rw [runLoop]
  simp only [dif_pos (And.intro (show st.queue ≠ [] from by rw [hq]; exact List.cons_ne_nil _ _) hlt)]
  split
  · next heq => rw [hq] at heq; cases heq
  · next u2 q2 heq =>
    rw [hq] at heq
    injection heq with h1 h2
    subst h1; subst h2
    rw [if_neg hmem, if_neg (by simpa using hrob)]
    simp only [hf, hr, hx]
    rw [he]
    rfl
/-- The URLs passed to `Crawler.fetch` during a run, in order. -/
def fetchedUrls (evs : List Ev) : List Str :=
  evs.filterMap (fun e => match e with | .fetchCall u => some u | _ => none)

theorem fetchedUrls_nil : fetchedUrls [] = [] := rfl

theorem fetchedUrls_cons_fetch (u : Str) (evs : List Ev) :
    fetchedUrls (Ev.fetchCall u :: evs) = u :: fetchedUrls evs := rfl

theorem fetchedUrls_cons_failed (u : Str) (evs : List Ev) :
    fetchedUrls (Ev.fetchFailed u :: evs) = fetchedUrls evs := rfl

theorem fetchedUrls_append (a b : List Ev) :
    fetchedUrls (a ++ b) = fetchedUrls a ++ fetchedUrls b := by
  simp [fetchedUrls]

theorem fetchedUrls_chunkEvents (H : Str → Str) (l : List Str) :
    fetchedUrls (l.map (fun ck => Ev.chunkProduced (H ck))) = [] := by
  induction l with
  | nil => rfl
  | cons a t ih => simp only [List.map_cons, fetchedUrls, List.filterMap_cons] at ih ⊢; exact ih

theorem fetchedUrls_wr (env : Env) (store : Store) (pid : Nat) (url title text : Str)
    (a b : Option Str) :
    fetchedUrls (write_records env store pid url title text a b).2.2.2 = [] := by
  rw [write_records.eq_def]
  by_cases ht : text ≠ []
  · rw [if_pos ht]
    rcases hch : chunk_text text env.chunkSize env.chunkOverlap with _ | ⟨c, cs⟩
    · rfl
    · exact fetchedUrls_chunkEvents env.H (c :: cs)
  · rw [if_neg ht]
    rfl

theorem fetchedUrls_recSt (env : Env) (st : CrawlState) (url rel text title : Str) :
    fetchedUrls (recSt env st url rel text title).2.2.2 = [] :=
  fetchedUrls_wr env st.store st.pageId url title text _ _

theorem runLoop_fetch_inv (env : Env) (st : CrawlState) :
    (fetchedUrls (runLoop env st).2.1).Nodup ∧
    (∀ u ∈ fetchedUrls (runLoop env st).2.1, u ∉ st.visited ∧ u ∈ (runLoop env st).1.visited) ∧
    (∀ u ∈ st.visited, u ∈ (runLoop env st).1.visited) ∧
    (runLoop env st).1.visited.length ≤ max st.visited.length env.maxPages := by
  induction st using runLoop.induct env with
  | case1 x hcond hq => exact absurd hq hcond.1
  | case2 x hcond url qrest hq st0 hmem ih =>
    rw [runLoop_skip env x url qrest hq hcond.2 hmem]
    exact ih
  | case3 x hcond url qrest hq st0 hmem hrob ih =>
    rw [runLoop_robots env x url qrest hq hcond.2 hmem hrob]
    exact ih
  | case4 x hcond url qrest hq st0 hmem hrob st1 hfetch ih =>
    rw [runLoop_fail env x url qrest hq hcond.2 hmem (not_not.mp hrob) hfetch]
    obtain ⟨ih1, ih2, ih3, ih4⟩ := ih
    refine ⟨?_, ?_, ?_, ?_⟩
    · rw [fetchedUrls_cons_fetch, fetchedUrls_cons_failed, List.nodup_cons]
      refine ⟨fun hin => (ih2 url hin).1 ?_, ih1⟩
      exact List.mem_append_right _ (List.mem_singleton.mpr rfl)
    · intro u hu
      rw [fetchedUrls_cons_fetch, fetchedUrls_cons_failed] at hu
      rcases List.mem_cons.mp hu with rfl | hu2
      · exact ⟨hmem, ih3 u (List.mem_append_right _ (List.mem_singleton.mpr rfl))⟩
      · have h := ih2 u hu2
        exact ⟨fun hx2 => h.1 (List.mem_append_left _ hx2), h.2⟩
    · intro u hu
      exact ih3 u (List.mem_append_left _ hu)
    · have h4 := ih4
      have hmax : (x.visited ++ [url]).length ⊔ env.maxPages = env.maxPages := by
        simp only [List.length_append, List.length_cons, List.length_nil]
        exact Nat.max_eq_right hcond.2
      rw [hmax] at h4
      exact le_trans h4 (Nat.le_max_right _ _)
  | case5 x hcond url qrest hq st0 hmem hrob html hfetch e herr =>
    rw [runLoop_relpathErr env x url qrest hq hcond.2 hmem (not_not.mp hrob) html hfetch e herr]
    refine ⟨by simp [fetchedUrls], ?_, ?_, ?_⟩
    · intro u hu
      rw [fetchedUrls_cons_fetch, fetchedUrls_nil] at hu
      rcases List.mem_cons.mp hu with rfl | hu2
      · exact ⟨hmem, List.mem_append_right _ (List.mem_singleton.mpr rfl)⟩
      · cases hu2
    · intro u hu
      exact List.mem_append_left _ hu
    · show (x.visited ++ [url]).length ≤ _
      simp only [List.length_append, List.length_cons, List.length_nil]
      exact le_trans (by omega : x.visited.length + 1 ≤ env.maxPages) (Nat.le_max_right _ _)
  | case6 x hcond url qrest hq st0 hmem hrob html hfetch rel hrel e herr =>
    rw [runLoop_extractErr env x url qrest hq hcond.2 hmem (not_not.mp hrob) html hfetch rel hrel e herr]
    refine ⟨by simp [fetchedUrls], ?_, ?_, ?_⟩
    · intro u hu
      rw [fetchedUrls_cons_fetch, fetchedUrls_nil] at hu
      rcases List.mem_cons.mp hu with rfl | hu2
      · exact ⟨hmem, List.mem_append_right _ (List.mem_singleton.mpr rfl)⟩
      · cases hu2
    · intro u hu
      exact List.mem_append_left _ hu
    · show (x.visited ++ [url]).length ≤ _
      simp only [List.length_append, List.length_cons, List.length_nil]
      exact le_trans (by omega : x.visited.length + 1 ≤ env.maxPages) (Nat.le_max_right _ _)
  | case7 x hcond url qrest hq st0 hmem hrob st1 html hfetch rel hrel text title hext htmlRel txtRel wr st2 e herr =>
    rw [runLoop_enqErr env x url qrest hq hcond.2 hmem (not_not.mp hrob) html hfetch rel hrel
      text title hext e herr]
    refine ⟨?_, ?_, ?_, ?_⟩
    · rw [fetchedUrls_cons_fetch, fetchedUrls_recSt]
      simp
    · intro u hu
      rw [fetchedUrls_cons_fetch, fetchedUrls_recSt] at hu
      rcases List.mem_cons.mp hu with rfl | hu2
      · exact ⟨hmem, List.mem_append_right _ (List.mem_singleton.mpr rfl)⟩
      · cases hu2
    · intro u hu
      exact List.mem_append_left _ hu
    · show (x.visited ++ [url]).length ≤ _
      simp only [List.length_append, List.length_cons, List.length_nil]
      exact le_trans (by omega : x.visited.length + 1 ≤ env.maxPages) (Nat.le_max_right _ _)
  | case8 x hcond url qrest hq st0 hmem hrob st1 html hfetch rel hrel text title hext htmlRel txtRel wr st2 q1 henq st3 ih =>
    rw [runLoop_step env x url qrest hq hcond.2 hmem (not_not.mp hrob) html hfetch rel hrel
      text title hext q1 henq]
    dsimp only
    obtain ⟨ih1, ih2, ih3, ih4⟩ := ih
    refine ⟨?_, ?_, ?_, ?_⟩
    · simp only [fetchedUrls_cons_fetch, fetchedUrls_append, fetchedUrls_recSt,
        List.nil_append, List.singleton_append,
        show fetchedUrls [Ev.pageDone x.pageId] = [] from rfl]
      rw [List.nodup_cons]
      refine ⟨fun hin => (ih2 url hin).1 ?_, ih1⟩
      exact List.mem_append_right _ (List.mem_singleton.mpr rfl)
    · intro u hu
      simp only [fetchedUrls_cons_fetch, fetchedUrls_append, fetchedUrls_recSt,
        List.nil_append, List.singleton_append,
        show fetchedUrls [Ev.pageDone x.pageId] = [] from rfl] at hu
      rcases List.mem_cons.mp hu with rfl | hu2
      · exact ⟨hmem, ih3 u (List.mem_append_right _ (List.mem_singleton.mpr rfl))⟩
      · have h := ih2 u hu2
        exact ⟨fun hx2 => h.1 (List.mem_append_left _ hx2), h.2⟩
    · intro u hu
      exact ih3 u (List.mem_append_left _ hu)
    · have h4 := ih4
      have hmax : (x.visited ++ [url]).length ⊔ env.maxPages = env.maxPages := by
        simp only [List.length_append, List.length_cons, List.length_nil]
        exact Nat.max_eq_right hcond.2
      rw [hmax] at h4
      exact le_trans h4 (Nat.le_max_right _ _)
  | case9 x hcond =>
    rw [runLoop_stop env x hcond]
    refine ⟨by simp [fetchedUrls], ?_, fun u hu => hu, le_trans (Nat.le_refl _) (Nat.le_max_left _ _)⟩
    intro u hu
    simp [fetchedUrls] at hu
def toMin (r : FullRec) : MinRec := ⟨r.id, r.contents⟩

/-- The dedup invariant tying the hash set to the two record streams: full
records carry pairwise-distinct hashes, the hash set holds exactly the
hashes of the written full records, the minimal stream mirrors the full
stream, and every record's hash is the digest of its contents. -/
def DedupInv (H : Str → Str) (s : Store) : Prop :=
  (s.fullLines.map (fun r => r.hash)).Nodup ∧
  (∀ h, h ∈ s.chunkHashes ↔ h ∈ s.fullLines.map (fun r => r.hash)) ∧
  s.minLines = s.fullLines.map toMin ∧
  (∀ r ∈ s.fullLines, r.hash = H r.contents)

theorem writeChunk_dup (H : Str → Str) (pageId total : Nat) (url title : Str)
    (store : Store) (ci : Nat) (ck : Str) (hdup : (H ck) ∈ store.chunkHashes) :
    writeChunk H pageId total url title store ci ck = (store, 1) := by
  rw [writeChunk]
  rw [if_pos (List.elem_eq_true_of_mem hdup)]

theorem writeChunk_inv (H : Str → Str) (pageId total : Nat) (url title : Str)
    (store : Store) (ci : Nat) (ck : Str) (hInv : DedupInv H store) :
    DedupInv H (writeChunk H pageId total url title store ci ck).1 ∧
    (writeChunk H pageId total url title store ci ck).1.fullLines.length +
      (writeChunk H pageId total url title store ci ck).2 = store.fullLines.length + 1 ∧
    (∀ x ∈ store.chunkHashes,
      x ∈ (writeChunk H pageId total url title store ci ck).1.chunkHashes) ∧
    H ck ∈ (writeChunk H pageId total url title store ci ck).1.chunkHashes := by
  obtain ⟨h1, h2, h3, h4⟩ := hInv
  rw [writeChunk]
  by_cases hdup : store.chunkHashes.contains (H ck)
  · rw [if_pos hdup]
    exact ⟨⟨h1, h2, h3, h4⟩, rfl, fun x hx => hx, List.mem_of_elem_eq_true hdup⟩
  · rw [if_neg hdup]
    have hnot : H ck ∉ store.chunkHashes := fun hc => hdup (List.elem_eq_true_of_mem hc)
    have hnot2 : H ck ∉ store.fullLines.map (fun r => r.hash) := fun hc => hnot ((h2 _).mpr hc)
    refine ⟨⟨?_, ?_, ?_, ?_⟩, ?_, ?_, ?_⟩
    · simp only [List.map_append, List.map_cons, List.map_nil]
      exact List.Nodup.append h1 (List.nodup_singleton _)
        (by intro a ha hb; rw [List.mem_singleton] at hb; subst hb; exact hnot2 ha)
    · intro h
      simp only [List.mem_append, List.mem_singleton, List.map_append, List.map_cons,
        List.map_nil, h2]
    · simp [h3, toMin]
    · intro r hr
      rcases List.mem_append.mp hr with hr1 | hr2
      · exact h4 r hr1
      · rw [List.mem_singleton] at hr2; subst hr2; rfl
    · simp
    · intro x hx
      exact List.mem_append_left _ hx
    · exact List.mem_append_right _ (List.mem_singleton.mpr rfl)

theorem mem_enumFrom_of_mem {α : Type} (a : α) : ∀ (l : List α) (n : Nat), a ∈ l →
    ∃ i, (i, a) ∈ l.enumFrom n
  | [], _, h => absurd h (List.not_mem_nil a)
  | x :: xs, n, h => by
    rcases List.mem_cons.mp h with rfl | h2
    · exact ⟨n, List.mem_cons_self _ _⟩
    · obtain ⟨i, hi⟩ := mem_enumFrom_of_mem a xs (n + 1) h2
      exact ⟨i, List.mem_cons_of_mem _ hi⟩

theorem foldChunks_inv (H : Str → Str) (pageId total : Nat) (url title : Str) :
    ∀ (ps : List (Nat × Str)) (store : Store) (d0 : Nat), DedupInv H store →
    DedupInv H (ps.foldl (fun (acc : Store × Nat) p =>
        let r := writeChunk H pageId total url title acc.1 p.1 p.2
        (r.1, acc.2 + r.2)) (store, d0)).1 ∧
    ((ps.foldl (fun (acc : Store × Nat) p =>
        let r := writeChunk H pageId total url title acc.1 p.1 p.2
        (r.1, acc.2 + r.2)) (store, d0)).1.fullLines.length +
      (ps.foldl (fun (acc : Store × Nat) p =>
        let r := writeChunk H pageId total url title acc.1 p.1 p.2
        (r.1, acc.2 + r.2)) (store, d0)).2
      = store.fullLines.length + d0 + ps.length) ∧
    (∀ x ∈ store.chunkHashes, x ∈ (ps.foldl (fun (acc : Store × Nat) p =>
        let r := writeChunk H pageId total url title acc.1 p.1 p.2
        (r.1, acc.2 + r.2)) (store, d0)).1.chunkHashes) ∧
    (∀ p ∈ ps, H p.2 ∈ (ps.foldl (fun (acc : Store × Nat) p =>
        let r := writeChunk H pageId total url title acc.1 p.1 p.2
        (r.1, acc.2 + r.2)) (store, d0)).1.chunkHashes)
  | [], store, d0, hInv => by
    exact ⟨hInv, by simp, fun x hx => hx, by simp⟩
  | p :: ps, store, d0, hInv => by
    simp only [List.foldl_cons]
    obtain ⟨w1, w2, w3, w4⟩ :=
      writeChunk_inv H pageId total url title store p.1 p.2 hInv
    obtain ⟨ih1, ih2, ih3, ih4⟩ :=
      foldChunks_inv H pageId total url title ps
        (writeChunk H pageId total url title store p.1 p.2).1
        (d0 + (writeChunk H pageId total url title store p.1 p.2).2) w1
    refine ⟨ih1, ?_, ?_, ?_⟩
    · rw [ih2]
      simp only [List.length_cons]
      omega
    · intro x hx
      exact ih3 x (w3 x hx)
    · intro q hq
      rcases List.mem_cons.mp hq with rfl | hq2
      · exact ih3 _ w4
      · exact ih4 q hq2

theorem write_records_inv (env : Env) (store : Store) (pid : Nat) (url title text : Str)
    (a b : Option Str) (hInv : DedupInv env.H store) :
    DedupInv env.H (write_records env store pid url title text a b).1 ∧
    ((write_records env store pid url title text a b).1.fullLines.length +
        (write_records env store pid url title text a b).2.2.1
      = store.fullLines.length + (write_records env store pid url title text a b).2.1) ∧
    (∀ x ∈ store.chunkHashes,
      x ∈ (write_records env store pid url title text a b).1.chunkHashes) ∧
    (∀ h, Ev.chunkProduced h ∈ (write_records env store pid url title text a b).2.2.2 →
      h ∈ (write_records env store pid url title text a b).1.chunkHashes) := by
  rw [write_records.eq_def]
  by_cases ht : text ≠ []
  · rw [if_pos ht]
    rcases hch : chunk_text text env.chunkSize env.chunkOverlap with _ | ⟨c, cs⟩
    · exact ⟨hInv, by simp, fun x hx => hx, by simp⟩
    · rw [if_neg (List.cons_ne_nil c cs)]
      obtain ⟨f1, f2, f3, f4⟩ :=
        foldChunks_inv env.H pid (c :: cs).length url title (c :: cs).enum store 0 hInv
      refine ⟨f1, ?_, f3, ?_⟩
      · rw [show ((c :: cs).enum.foldl (fun (acc : Store × Nat) p =>
            let r := writeChunk env.H pid (c :: cs).length url title acc.1 p.1 p.2
            (r.1, acc.2 + r.2)) (store, 0)).1.fullLines.length +
            ((c :: cs).enum.foldl (fun (acc : Store × Nat) p =>
            let r := writeChunk env.H pid (c :: cs).length url title acc.1 p.1 p.2
            (r.1, acc.2 + r.2)) (store, 0)).2
            = store.fullLines.length + 0 + (c :: cs).enum.length from f2]
        rw [List.enum_length]
        show store.fullLines.length + 0 + (c :: cs).length
          = store.fullLines.length + (c :: cs).length
        omega
      · intro h hh
        rcases List.mem_map.mp hh with ⟨ck, hck, hck2⟩
        injection hck2 with hck3
        obtain ⟨i, hi⟩ := mem_enumFrom_of_mem ck (c :: cs) 0 hck
        subst hck3
        exact f4 (i, ck) hi
  · rw [if_neg ht]
    exact ⟨hInv, by simp, fun x hx => hx, by simp⟩

theorem runLoop_dedup_inv (env : Env) (st : CrawlState) :
    DedupInv env.H st.store →
    st.stats.chunks_written = st.store.fullLines.length + st.stats.chunks_deduped →
    DedupInv env.H (runLoop env st).1.store ∧
    ((runLoop env st).1.stats.chunks_written
      = (runLoop env st).1.store.fullLines.length + (runLoop env st).1.stats.chunks_deduped) ∧
    (∀ x ∈ st.store.chunkHashes, x ∈ (runLoop env st).1.store.chunkHashes) ∧
    (∀ h, Ev.chunkProduced h ∈ (runLoop env st).2.1 →
      h ∈ (runLoop env st).1.store.chunkHashes) := by
  induction st using runLoop.induct env with
  | case1 x hcond hq => exact absurd hq hcond.1
  | case2 x hcond url qrest hq st0 hmem ih =>
    intro hInv hacc
    rw [runLoop_skip env x url qrest hq hcond.2 hmem]
    exact ih hInv hacc
  | case3 x hcond url qrest hq st0 hmem hrob ih =>
    intro hInv hacc
    rw [runLoop_robots env x url qrest hq hcond.2 hmem hrob]
    exact ih hInv hacc
  | case4 x hcond url qrest hq st0 hmem hrob st1 hfetch ih =>
    intro hInv hacc
    rw [runLoop_fail env x url qrest hq hcond.2 hmem (not_not.mp hrob) hfetch]
    obtain ⟨ih1, ih2, ih3, ih4⟩ := ih hInv hacc
    refine ⟨ih1, ih2, ih3, ?_⟩
    intro h hh
    rcases List.mem_cons.mp hh with habs | hh2
    · cases habs
    rcases List.mem_cons.mp hh2 with habs | hh3
    · cases habs
    exact ih4 h hh3
  | case5 x hcond url qrest hq st0 hmem hrob html hfetch e herr =>
    intro hInv hacc
    rw [runLoop_relpathErr env x url qrest hq hcond.2 hmem (not_not.mp hrob) html hfetch e herr]
    refine ⟨hInv, hacc, fun x hx => hx, ?_⟩
    intro h hh
    rcases List.mem_cons.mp hh with habs | hh2
    · cases habs
    · cases hh2
  | case6 x hcond url qrest hq st0 hmem hrob html hfetch rel hrel e herr =>
    intro hInv hacc
    rw [runLoop_extractErr env x url qrest hq hcond.2 hmem (not_not.mp hrob) html hfetch
      rel hrel e herr]
    refine ⟨hInv, hacc, fun x hx => hx, ?_⟩
    intro h hh
    rcases List.mem_cons.mp hh with habs | hh2
    · cases habs
    · cases hh2
  | case7 x hcond url qrest hq st0 hmem hrob st1 html hfetch rel hrel text title hext htmlRel txtRel wr st2 e herr =>
    intro hInv hacc
    rw [runLoop_enqErr env x url qrest hq hcond.2 hmem (not_not.mp hrob) html hfetch rel hrel
      text title hext e herr]
    obtain ⟨w1, w2, w3, w4⟩ := write_records_inv env x.store x.pageId url title text
      (if env.saveHtml then some (pathNorm rel) else none)
      (if env.saveText then some (withSuffixTxt (pathNorm rel)) else none) hInv
    refine ⟨w1, ?_, w3, ?_⟩
    · show x.stats.chunks_written +
        (write_records env x.store x.pageId url title text
          (if env.saveHtml then some (pathNorm rel) else none)
          (if env.saveText then some (withSuffixTxt (pathNorm rel)) else none)).2.1
        = (write_records env x.store x.pageId url title text
            (if env.saveHtml then some (pathNorm rel) else none)
            (if env.saveText then some (withSuffixTxt (pathNorm rel)) else none)).1.fullLines.length
          + (x.stats.chunks_deduped +
        (write_records env x.store x.pageId url title text
          (if env.saveHtml then some (pathNorm rel) else none)
          (if env.saveText then some (withSuffixTxt (pathNorm rel)) else none)).2.2.1)
      omega
    · intro h hh
      rcases List.mem_cons.mp hh with habs | hh2
      · cases habs
      · exact w4 h hh2
  | case8 x hcond url qrest hq st0 hmem hrob st1 html hfetch rel hrel text title hext htmlRel txtRel wr st2 q1 henq st3 ih =>
    intro hInv hacc
    rw [runLoop_step env x url qrest hq hcond.2 hmem (not_not.mp hrob) html hfetch rel hrel
      text title hext q1 henq]
    obtain ⟨w1, w2, w3, w4⟩ := write_records_inv env x.store x.pageId url title text
      (if env.saveHtml then some (pathNorm rel) else none)
      (if env.saveText then some (withSuffixTxt (pathNorm rel)) else none) hInv
    obtain ⟨ih1, ih2, ih3, ih4⟩ := ih w1 (by
      show x.stats.chunks_written +
        (write_records env x.store x.pageId url title text
          (if env.saveHtml then some (pathNorm rel) else none)
          (if env.saveText then some (withSuffixTxt (pathNorm rel)) else none)).2.1
        = (write_records env x.store x.pageId url title text
            (if env.saveHtml then some (pathNorm rel) else none)
            (if env.saveText then some (withSuffixTxt (pathNorm rel)) else none)).1.fullLines.length
          + (x.stats.chunks_deduped +
        (write_records env x.store x.pageId url title text
          (if env.saveHtml then some (pathNorm rel) else none)
          (if env.saveText then some (withSuffixTxt (pathNorm rel)) else none)).2.2.1)
      omega)
    refine ⟨ih1, ih2, ?_, ?_⟩
    · intro y hy
      exact ih3 y (w3 y hy)
    · intro h hh
      rcases List.mem_cons.mp hh with habs | hh2
      · cases habs
      rcases List.mem_append.mp hh2 with hh3 | hh4
      · rcases List.mem_append.mp hh3 with hh5 | hh6
        · exact ih3 h (w4 h hh5)
        · have h' := List.mem_singleton.mp hh6
          simp at h'
      · exact ih4 h hh4
  | case9 x hcond =>
    intro hInv hacc
    rw [runLoop_stop env x hcond]
    refine ⟨hInv, hacc, fun x hx => hx, ?_⟩
    intro h hh
    have h' := List.mem_singleton.mp hh
    simp at h'
/-- The pageIds assigned during a run (one `pageDone` event per page whose
records were written and whose `page_id` was then advanced), in order. -/
def pageDoneIds (evs : List Ev) : List Nat :=
  evs.filterMap (fun e => match e with | .pageDone i => some i | _ => none)

theorem pageDoneIds_append (a b : List Ev) :
    pageDoneIds (a ++ b) = pageDoneIds a ++ pageDoneIds b := by
  simp [pageDoneIds]

theorem pageDoneIds_recSt (env : Env) (st : CrawlState) (url rel text title : Str) :
    pageDoneIds (recSt env st url rel text title).2.2.2 = [] := by
  have h : ∀ (l : List Str),
      pageDoneIds (l.map (fun ck => Ev.chunkProduced (env.H ck))) = [] := by
    intro l
    induction l with
    | nil => rfl
    | cons a t ih => simp only [List.map_cons, pageDoneIds, List.filterMap_cons] at ih ⊢; exact ih
  show pageDoneIds (write_records env st.store st.pageId url title text _ _).2.2.2 = []
  rw [write_records.eq_def]
  by_cases ht : text ≠ []
  · rw [if_pos ht]
    rcases hch : chunk_text text env.chunkSize env.chunkOverlap with _ | ⟨c, cs⟩
    · rfl
    · exact h (c :: cs)
  · rw [if_neg ht]
    rfl

/-- The pageIds assigned by the loop are exactly the consecutive integers
from the starting `pageId`, and the final `pageId` sits one past the last
assigned id. -/
theorem runLoop_pageIds (env : Env) (st : CrawlState) :
    pageDoneIds (runLoop env st).2.1
      = List.range' st.pageId ((runLoop env st).1.pageId - st.pageId) ∧
    st.pageId ≤ (runLoop env st).1.pageId := by
  induction st using runLoop.induct env with
  | case1 x hcond hq => exact absurd hq hcond.1
  | case2 x hcond url qrest hq st0 hmem ih =>
    rw [runLoop_skip env x url qrest hq hcond.2 hmem]
    exact ih
  | case3 x hcond url qrest hq st0 hmem hrob ih =>
    rw [runLoop_robots env x url qrest hq hcond.2 hmem hrob]
    exact ih
  | case4 x hcond url qrest hq st0 hmem hrob st1 hfetch ih =>
    rw [runLoop_fail env x url qrest hq hcond.2 hmem (not_not.mp hrob) hfetch]
    exact ih
  | case5 x hcond url qrest hq st0 hmem hrob html hfetch e herr =>
    rw [runLoop_relpathErr env x url qrest hq hcond.2 hmem (not_not.mp hrob) html hfetch e herr]
    exact ⟨by simp [pageDoneIds, visSt], Nat.le_refl _⟩
  | case6 x hcond url qrest hq st0 hmem hrob html hfetch rel hrel e herr =>
    rw [runLoop_extractErr env x url qrest hq hcond.2 hmem (not_not.mp hrob) html hfetch
      rel hrel e herr]
    exact ⟨by simp [pageDoneIds, visSt], Nat.le_refl _⟩
  | case7 x hcond url qrest hq st0 hmem hrob st1 html hfetch rel hrel text title hext htmlRel txtRel wr st2 e herr =>
    rw [runLoop_enqErr env x url qrest hq hcond.2 hmem (not_not.mp hrob) html hfetch rel hrel
      text title hext e herr]
    refine ⟨?_, Nat.le_refl _⟩
    show pageDoneIds (Ev.fetchCall url :: (recSt env (visSt x url qrest) url rel text title).2.2.2)
      = List.range' x.pageId (x.pageId - x.pageId)
    rw [show pageDoneIds (Ev.fetchCall url :: (recSt env (visSt x url qrest) url rel text title).2.2.2)
        = pageDoneIds (recSt env (visSt x url qrest) url rel text title).2.2.2 from rfl,
      pageDoneIds_recSt]
    simp
  | case8 x hcond url qrest hq st0 hmem hrob st1 html hfetch rel hrel text title hext htmlRel txtRel wr st2 q1 henq st3 ih =>
    rw [runLoop_step env x url qrest hq hcond.2 hmem (not_not.mp hrob) html hfetch rel hrel
      text title hext q1 henq]
    obtain ⟨ih1, ih2⟩ := ih
    constructor
    · show pageDoneIds ((Ev.fetchCall url ::
        ((recSt env (visSt x url qrest) url rel text title).2.2.2 ++ [Ev.pageDone x.pageId])) ++ _)
        = _
      rw [pageDoneIds_append]
      rw [show pageDoneIds (Ev.fetchCall url ::
          ((recSt env (visSt x url qrest) url rel text title).2.2.2 ++ [Ev.pageDone x.pageId]))
        = pageDoneIds ((recSt env (visSt x url qrest) url rel text title).2.2.2
            ++ [Ev.pageDone x.pageId]) from rfl]
      rw [pageDoneIds_append, pageDoneIds_recSt]
      rw [show pageDoneIds [Ev.pageDone x.pageId] = [x.pageId] from rfl]
      have ih1x : pageDoneIds (runLoop env { (recSt env (visSt x url qrest) url rel text title).1
            with queue := q1, pageId := x.pageId + 1 }).2.1
          = List.range' (x.pageId + 1)
              ((runLoop env { (recSt env (visSt x url qrest) url rel text title).1
                with queue := q1, pageId := x.pageId + 1 }).1.pageId - (x.pageId + 1)) := ih1
      rw [ih1x]
      have hle : x.pageId + 1 ≤ (runLoop env { (recSt env (visSt x url qrest) url rel text title).1
          with queue := q1, pageId := x.pageId + 1 }).1.pageId := ih2
      rw [List.nil_append]
      rw [show (runLoop env { (recSt env (visSt x url qrest) url rel text title).1
          with queue := q1, pageId := x.pageId + 1 }).1.pageId - x.pageId
        = ((runLoop env { (recSt env (visSt x url qrest) url rel text title).1
          with queue := q1, pageId := x.pageId + 1 }).1.pageId - (x.pageId + 1)) + 1 by omega]
      rw [List.range'_succ]
      rfl
    · exact le_trans (Nat.le_succ _) ih2
  | case9 x hcond =>
    rw [runLoop_stop env x hcond]
    exact ⟨by simp [pageDoneIds], Nat.le_refl _⟩

/-- The number of failed page fetches recorded in the trace. -/
def failedCount (evs : List Ev) : Nat :=
  (evs.filterMap (fun e => match e with | .fetchFailed u => some u | _ => none)).length

/-- A link-discovery environment is raise-free when joining and normalizing
any href succeeds, and a nonempty normalized link re-parses. -/
def LinkOk (env : Env) : Prop :=
  ∀ b h', ∃ u, normalize_url env.nOK (env.joinO b h') = .ok u ∧
    (u ≠ [] → ∃ p, urlparseE env.nOK u = .ok p)

theorem ebind_ok {α β : Type} (a : α) (f : α → Except Unit β) :
    (Except.ok a : Except Unit α) >>= f = f a := rfl

theorem url_to_relpath_ok (nOK : Str → Bool) (u bp : Str) (p : Parsed)
    (hp : urlparseE nOK u = .ok p) :
    ∃ r, url_to_relpath nOK u bp = .ok r := by
  rw [url_to_relpath]
  rw [hp]
  exact ⟨_, rfl⟩

theorem linkDecision_ok (env : Env) (visited : List Str) (pageUrl href : Str)
    (hlink : LinkOk env) :
    ∃ d, linkDecision env visited pageUrl href = .ok d ∧
      ∀ v, d = some v → ∃ p, urlparseE env.nOK v = .ok p := by
  rw [linkDecision]
  by_cases hpre : (pyStrip href).take 7 = s2l "mailto:" ∨ (pyStrip href).take 11 = s2l "javascript:"
  · rw [if_pos hpre]
    exact ⟨none, rfl, fun v hv => by cases hv⟩
  · rw [if_neg hpre]
    obtain ⟨u, hu, hup⟩ := hlink pageUrl (pyStrip href)
    rw [hu]
    simp only [ebind_ok]
    by_cases hskip : u = [] ∨ u ∈ visited
    · rw [if_pos hskip]
      exact ⟨none, rfl, fun v hv => by cases hv⟩
    · rw [if_neg hskip]
      have hne : u ≠ [] := fun h0 => hskip (Or.inl h0)
      obtain ⟨p, hp⟩ := hup hne
      rw [is_within_base, hp]
      simp only [ebind_ok, decide_eq_true_eq]
      by_cases hwb : p.netloc = env.baseNetloc ∧ p.path.take env.basePath.length = env.basePath
      · rw [if_neg (not_not.mpr hwb)]
        by_cases hext : HTML_EXTS.contains (((splitext p.path).2).map asciiLower) = true
        · rw [if_neg (not_not.mpr hext)]
          rcases hinc : env.includeRe with _ | f
          · simp only [hinc]
            rcases hexc : env.excludeRe with _ | g
            · simp only [hexc]
              exact ⟨some u, rfl, fun v hv => by cases hv; exact ⟨p, hp⟩⟩
            · simp only [hexc]
              by_cases hg : g u = true
              · rw [if_pos hg]
                exact ⟨none, rfl, fun v hv => by cases hv⟩
              · rw [if_neg hg]
                exact ⟨some u, rfl, fun v hv => by cases hv; exact ⟨p, hp⟩⟩
          · simp only [hinc]
            by_cases hf : f u = true
            · rw [if_neg (not_not.mpr hf)]
              rcases hexc : env.excludeRe with _ | g
              · simp only [hexc]
                exact ⟨some u, rfl, fun v hv => by cases hv; exact ⟨p, hp⟩⟩
              · simp only [hexc]
                by_cases hg : g u = true
                · rw [if_pos hg]
                  exact ⟨none, rfl, fun v hv => by cases hv⟩
                · rw [if_neg hg]
                  exact ⟨some u, rfl, fun v hv => by cases hv; exact ⟨p, hp⟩⟩
            · rw [if_pos hf]
              exact ⟨none, rfl, fun v hv => by cases hv⟩
        · rw [if_pos hext]
          exact ⟨none, rfl, fun v hv => by cases hv⟩
      · rw [if_pos hwb]
        exact ⟨none, rfl, fun v hv => by cases hv⟩

theorem enqueue_fold_ok (env : Env) (visited : List Str) (pageUrl : Str)
    (hlink : LinkOk env) :
    ∀ (hrefs : List Str) (queue : List Str),
    ∃ q1, hrefs.foldlM (fun q href => do
        let d ← linkDecision env visited pageUrl href
        match d with
        | some u => Except.ok (q ++ [u])
        | none => Except.ok q) queue = .ok q1 ∧
      q1 = queue ++ hrefs.filterMap (fun href =>
        match linkDecision env visited pageUrl href with
        | .ok (some u) => some u
        | _ => none) ∧
      (∀ u ∈ q1, u ∈ queue ∨ ∃ p, urlparseE env.nOK u = .ok p)
  | [], queue => ⟨queue, rfl, by simp, fun u hu => Or.inl hu⟩
  | href :: hrefs, queue => by
    obtain ⟨d, hd, hdp⟩ := linkDecision_ok env visited pageUrl href hlink
    rcases d with _ | u
    · obtain ⟨q1, hq1, hch, hmem⟩ := enqueue_fold_ok env visited pageUrl hlink hrefs queue
      refine ⟨q1, ?_, ?_, hmem⟩
      · rw [List.foldlM_cons, hd]
        exact hq1
      · rw [hch, List.filterMap_cons]
        rw [hd]
    · obtain ⟨q1, hq1, hch, hmem⟩ := enqueue_fold_ok env visited pageUrl hlink hrefs (queue ++ [u])
      refine ⟨q1, ?_, ?_, ?_⟩
      · rw [List.foldlM_cons, hd]
        exact hq1
      · rw [hch, List.filterMap_cons, hd]
        simp
      · intro v hv
        rcases hmem v hv with hvq | hvp
        · rcases List.mem_append.mp hvq with hvq1 | hvq2
          · exact Or.inl hvq1
          · rw [List.mem_singleton] at hvq2
            subst hvq2
            exact Or.inr (hdp v rfl)
        · exact Or.inr hvp

theorem enqueue_links_ok (env : Env) (visited queue : List Str) (html pageUrl : Str)
    (hlink : LinkOk env) :
    ∃ q1, enqueue_links env visited queue html pageUrl = .ok q1 ∧
      q1 = queue ++ (env.linksO html).filterMap (fun href =>
        match linkDecision env visited pageUrl href with
        | .ok (some u) => some u
        | _ => none) ∧
      (∀ u ∈ q1, u ∈ queue ∨ ∃ p, urlparseE env.nOK u = .ok p) :=
  enqueue_fold_ok env visited pageUrl hlink (env.linksO html) queue

theorem failedCount_append (a b : List Ev) :
    failedCount (a ++ b) = failedCount a + failedCount b := by
  simp [failedCount]

theorem failedCount_recSt (env : Env) (st : CrawlState) (url rel text title : Str) :
    failedCount (recSt env st url rel text title).2.2.2 = 0 := by
  have h : ∀ (l : List Str),
      failedCount (l.map (fun ck => Ev.chunkProduced (env.H ck))) = 0 := by
    intro l
    induction l with
    | nil => rfl
    | cons a t ih => simp only [List.map_cons, failedCount, List.filterMap_cons] at ih ⊢; exact ih
  show failedCount (write_records env st.store st.pageId url title text _ _).2.2.2 = 0
  rw [write_records.eq_def]
  by_cases ht : text ≠ []
  · rw [if_pos ht]
    rcases hch : chunk_text text env.chunkSize env.chunkOverlap with _ | ⟨c, cs⟩
    · rfl
    · exact h (c :: cs)
  · rw [if_neg ht]
    rfl

theorem runLoop_failed_count (env : Env) (st : CrawlState) :
    (runLoop env st).1.stats.pages_failed
      = st.stats.pages_failed + failedCount (runLoop env st).2.1 := by
  induction st using runLoop.induct env with
  | case1 x hcond hq => exact absurd hq hcond.1
  | case2 x hcond url qrest hq st0 hmem ih =>
    rw [runLoop_skip env x url qrest hq hcond.2 hmem]
    exact ih
  | case3 x hcond url qrest hq st0 hmem hrob ih =>
    rw [runLoop_robots env x url qrest hq hcond.2 hmem hrob]
    exact ih
  | case4 x hcond url qrest hq st0 hmem hrob st1 hfetch ih =>
    rw [runLoop_fail env x url qrest hq hcond.2 hmem (not_not.mp hrob) hfetch]
    dsimp only
    rw [show failedCount (Ev.fetchCall url :: Ev.fetchFailed url ::
        (runLoop env (failSt x url qrest)).2.1)
      = failedCount (runLoop env (failSt x url qrest)).2.1 + 1 by
        simp [failedCount, Nat.add_comm]]
    have ihx : (runLoop env (failSt x url qrest)).1.stats.pages_failed
        = x.stats.pages_failed + 1 + failedCount (runLoop env (failSt x url qrest)).2.1 := ih
    omega
  | case5 x hcond url qrest hq st0 hmem hrob html hfetch e herr =>
    rw [runLoop_relpathErr env x url qrest hq hcond.2 hmem (not_not.mp hrob) html hfetch e herr]
    rfl
  | case6 x hcond url qrest hq st0 hmem hrob html hfetch rel hrel e herr =>
    rw [runLoop_extractErr env x url qrest hq hcond.2 hmem (not_not.mp hrob) html hfetch
      rel hrel e herr]
    rfl
  | case7 x hcond url qrest hq st0 hmem hrob st1 html hfetch rel hrel text title hext htmlRel txtRel wr st2 e herr =>
    rw [runLoop_enqErr env x url qrest hq hcond.2 hmem (not_not.mp hrob) html hfetch rel hrel
      text title hext e herr]
    show x.stats.pages_failed = x.stats.pages_failed +
      failedCount (Ev.fetchCall url :: (recSt env (visSt x url qrest) url rel text title).2.2.2)
    rw [show failedCount (Ev.fetchCall url ::
        (recSt env (visSt x url qrest) url rel text title).2.2.2)
      = failedCount (recSt env (visSt x url qrest) url rel text title).2.2.2 from rfl]
    rw [failedCount_recSt]
    omega
  | case8 x hcond url qrest hq st0 hmem hrob st1 html hfetch rel hrel text title hext htmlRel txtRel wr st2 q1 henq st3 ih =>
    rw [runLoop_step env x url qrest hq hcond.2 hmem (not_not.mp hrob) html hfetch rel hrel
      text title hext q1 henq]
    dsimp only
    have ihx : (runLoop env { (recSt env (visSt x url qrest) url rel text title).1 with
          queue := q1, pageId := x.pageId + 1 }).1.stats.pages_failed
        = x.stats.pages_failed + failedCount (runLoop env
            { (recSt env (visSt x url qrest) url rel text title).1 with
              queue := q1, pageId := x.pageId + 1 }).2.1 := ih
    rw [show failedCount ((Ev.fetchCall url ::
        ((recSt env (visSt x url qrest) url rel text title).2.2.2 ++ [Ev.pageDone x.pageId])) ++
        (runLoop env { (recSt env (visSt x url qrest) url rel text title).1 with
          queue := q1, pageId := x.pageId + 1 }).2.1)
      = failedCount (Ev.fetchCall url ::
          ((recSt env (visSt x url qrest) url rel text title).2.2.2 ++ [Ev.pageDone x.pageId])) +
        failedCount (runLoop env { (recSt env (visSt x url qrest) url rel text title).1 with
          queue := q1, pageId := x.pageId + 1 }).2.1 from failedCount_append _ _]
    rw [show failedCount (Ev.fetchCall url ::
        ((recSt env (visSt x url qrest) url rel text title).2.2.2 ++ [Ev.pageDone x.pageId]))
      = failedCount ((recSt env (visSt x url qrest) url rel text title).2.2.2 ++
          [Ev.pageDone x.pageId]) from rfl]
    rw [failedCount_append, failedCount_recSt]
    rw [show failedCount [Ev.pageDone x.pageId] = 0 from rfl]
    dsimp only at ihx ⊢
    omega
  | case9 x hcond =>
    rw [runLoop_stop env x hcond]
    rfl

/-- Containment of page-level fetch failures: when the extraction capability
never raises and link joining/normalization never raises, no exception
escapes the crawl loop (every queue URL must also parse, which holds for
every URL the loop itself enqueues). -/
theorem runLoop_no_escape (env : Env) (st : CrawlState)
    (hx : ∀ s, ∃ v, env.extractO s = .ok v) (hlink : LinkOk env) :
    (∀ u ∈ st.queue, ∃ p, urlparseE env.nOK u = .ok p) →
    (runLoop env st).2.2 = none := by
  induction st using runLoop.induct env with
  | case1 x hcond hq => exact absurd hq hcond.1
  | case2 x hcond url qrest hq st0 hmem ih =>
    intro hqok
    rw [runLoop_skip env x url qrest hq hcond.2 hmem]
    exact ih (fun u hu => hqok u (by rw [hq]; exact List.mem_cons_of_mem _ hu))
  | case3 x hcond url qrest hq st0 hmem hrob ih =>
    intro hqok
    rw [runLoop_robots env x url qrest hq hcond.2 hmem hrob]
    exact ih (fun u hu => hqok u (by rw [hq]; exact List.mem_cons_of_mem _ hu))
  | case4 x hcond url qrest hq st0 hmem hrob st1 hfetch ih =>
    intro hqok
    rw [runLoop_fail env x url qrest hq hcond.2 hmem (not_not.mp hrob) hfetch]
    exact ih (fun u hu => hqok u (by rw [hq]; exact List.mem_cons_of_mem _ hu))
  | case5 x hcond url qrest hq st0 hmem hrob html hfetch e herr =>
    intro hqok
    obtain ⟨p, hp⟩ := hqok url (by rw [hq]; exact List.mem_cons_self _ _)
    obtain ⟨r, hr⟩ := url_to_relpath_ok env.nOK url env.basePath p hp
    rw [hr] at herr
    cases herr
  | case6 x hcond url qrest hq st0 hmem hrob html hfetch rel hrel e herr =>
    intro hqok
    obtain ⟨v, hv⟩ := hx html
    rw [hv] at herr
    cases herr
  | case7 x hcond url qrest hq st0 hmem hrob st1 html hfetch rel hrel text title hext htmlRel txtRel wr st2 e herr =>
    intro hqok
    obtain ⟨q1, hq1, _, _⟩ := enqueue_links_ok env (x.visited ++ [url]) qrest html url hlink
    have herr2 : enqueue_links env (x.visited ++ [url]) qrest html url = .error e := herr
    rw [hq1] at herr2
    cases herr2
  | case8 x hcond url qrest hq st0 hmem hrob st1 html hfetch rel hrel text title hext htmlRel txtRel wr st2 q1 henq st3 ih =>
    intro hqok
    rw [runLoop_step env x url qrest hq hcond.2 hmem (not_not.mp hrob) html hfetch rel hrel
      text title hext q1 henq]
    obtain ⟨q1', hq1', hch, hmemq⟩ := enqueue_links_ok env (x.visited ++ [url]) qrest html url hlink
    have henq2 : enqueue_links env (x.visited ++ [url]) qrest html url = .ok q1 := henq
    rw [hq1'] at henq2
    injection henq2 with hq1eq
    subst hq1eq
    refine ih ?_
    intro u hu
    rcases hmemq u hu with huq | hup
    · exact hqok u (by rw [hq]; exact List.mem_cons_of_mem _ huq)
    · exact hup
  | case9 x hcond =>
    intro hqok
    rw [runLoop_stop env x hcond]

theorem foldChunks_maniRows (H : Str → Str) (pageId total : Nat) (url title : Str) :
    ∀ (ps : List (Nat × Str)) (store : Store) (d0 : Nat),
    (ps.foldl (fun (acc : Store × Nat) p =>
        let r := writeChunk H pageId total url title acc.1 p.1 p.2
        (r.1, acc.2 + r.2)) (store, d0)).1.maniRows = store.maniRows
  | [], store, d0 => rfl
  | p :: ps, store, d0 => by
    simp only [List.foldl_cons]
    rw [foldChunks_maniRows H pageId total url title ps _ _]
    rw [writeChunk]
    by_cases hdup : store.chunkHashes.contains (H p.2)
    · rw [if_pos hdup]
    · rw [if_neg hdup]

/-- The manifest row written by `write_records` for one page. -/
def maniRowOf (pid : Nat) (url title text : Str) (a b : Option Str) : ManiRow :=
  { id := s2l "page-" ++ natStr pid, url := url, title := title,
    htmlPath := match a with | some r => s2l "html/" ++ r | none => [],
    txtPath := match b with | some r => s2l "text/" ++ r | none => [],
    chars := text.length }

/-- `write_records` appends exactly one manifest row when the page's text
produced at least one chunk, and none otherwise (the early `return 0, 0`). -/
theorem write_records_manifest (env : Env) (store : Store) (pid : Nat)
    (url title text : Str) (a b : Option Str) :
    (write_records env store pid url title text a b).1.maniRows =
      (if (if text ≠ [] then chunk_text text env.chunkSize env.chunkOverlap else []) = []
       then store.maniRows
       else store.maniRows ++ [maniRowOf pid url title text a b]) := by
  rw [write_records.eq_def]
  by_cases ht : text ≠ []
  · rw [if_pos ht]
    rcases hch : chunk_text text env.chunkSize env.chunkOverlap with _ | ⟨c, cs⟩
    · simp
    · rw [if_neg (List.cons_ne_nil c cs)]
      show ((c :: cs).enum.foldl (fun (acc : Store × Nat) p =>
          let r := writeChunk env.H pid (c :: cs).length url title acc.1 p.1 p.2
          (r.1, acc.2 + r.2)) (store, 0)).1.maniRows ++ _ = _
      rw [foldChunks_maniRows]
      rfl
  · rw [if_neg ht]
    simp

/-- Whether a string contains the substring `..` (two adjacent dots). -/
def containsDotDot : Str → Bool
  | [] => false
  | c :: rest => (decide (c = '.') && decide (rest.head? = some '.')) || containsDotDot rest

theorem replaceDotDot_cons (c : Char) (rest : Str)
    (hno : ∀ r', c = '.' → rest = '.' :: r' → False) :
    replaceDotDot (c :: rest) = c :: replaceDotDot rest := by
  rw [replaceDotDot.eq_def]
  split
  · next heq => cases heq
  · next heq =>
    injection heq with e1 e2
    exact (hno _ e1 e2).elim
  · next heq =>
    injection heq with e1 e2
    rw [e1, e2]

theorem replaceDotDot_head (l : Str) :
    (replaceDotDot l).head? = l.head? ∨ (replaceDotDot l).head? = some '_' := by
  induction l using replaceDotDot.induct with
  | case1 => exact Or.inl rfl
  | case2 rest ih => exact Or.inr rfl
  | case3 c rest hno ih =>
    rw [replaceDotDot_cons c rest hno]
    exact Or.inl rfl

theorem replaceDotDot_ne_nil (l : Str) (h : l ≠ []) : replaceDotDot l ≠ [] := by
  rcases l with _ | ⟨c, rest⟩
  · exact absurd rfl h
  · rcases replaceDotDot_head (c :: rest) with h1 | h1 <;>
    · intro h0
      rw [h0] at h1
      cases h1

theorem replaceDotDot_clean (l : Str) : containsDotDot (replaceDotDot l) = false := by
  induction l using replaceDotDot.induct with
  | case1 => rfl
  | case2 rest ih =>
    rw [show replaceDotDot ('.' :: '.' :: rest) = '_' :: replaceDotDot rest from rfl]
    rw [containsDotDot, ih]
    simp
  | case3 c rest hno ih =>
    rw [replaceDotDot_cons c rest hno, containsDotDot, ih]
    simp only [Bool.or_false, Bool.and_eq_false_iff]
    by_cases hc : c = '.'
    · subst hc
      refine Or.inr ?_
      have hrest : rest.head? ≠ some '.' := by
        intro hh
        rcases rest with _ | ⟨c2, r2⟩
        · cases hh
        · injection hh with hh2
          exact hno r2 rfl (by rw [hh2])
      have hhead : (replaceDotDot rest).head? ≠ some '.' := by
        rcases replaceDotDot_head rest with h1 | h1
        · rw [h1]; exact hrest
        · rw [h1]
          intro hcon
          injection hcon with hcon2
          exact absurd hcon2 (by decide)
      simp [hhead]
    · exact Or.inl (by simp [hc])

theorem ebind_err {α β : Type} (e : Unit) (f : α → Except Unit β) :
    (Except.error e : Except Unit α) >>= f = Except.error e := rfl

theorem head_dropWhile_not (p : Char → Bool) (l : Str) :
    ∀ c, (l.dropWhile p).head? = some c → p c = false := by
  induction l with
  | nil => intro c h; cases h
  | cons a rest ih =>
    intro c h
    rw [List.dropWhile_cons] at h
    by_cases hp : p a = true
    · rw [if_pos hp] at h
      exact ih c h
    · rw [if_neg hp] at h
      injection h with h2
      rw [← h2]
      exact Bool.eq_false_iff.mpr hp

theorem pyLstripSlash_head (s : Str) : (pyLstripSlash s).head? ≠ some '/' := by
  intro hh
  have := head_dropWhile_not (fun c => c = '/') s '/' hh
  simp at this

theorem relpath_out_safe (rel2 : Str) (h2 : rel2.head? ≠ some '/') :
    (if replaceDotDot rel2 ≠ [] then replaceDotDot rel2 else s2l "index.html") ≠ [] ∧
    (if replaceDotDot rel2 ≠ [] then replaceDotDot rel2 else s2l "index.html").head? ≠ some '/' ∧
    containsDotDot (if replaceDotDot rel2 ≠ [] then replaceDotDot rel2 else s2l "index.html") = false := by
  by_cases h3 : replaceDotDot rel2 ≠ []
  · simp only [if_pos h3]
    refine ⟨h3, ?_, replaceDotDot_clean rel2⟩
    rcases replaceDotDot_head rel2 with hh | hh
    · rw [hh]
      exact h2
    · rw [hh]
      intro hc
      injection hc with hc2
      exact absurd hc2 (by decide)
  · simp only [if_neg h3]
    exact ⟨by decide, by decide, by decide⟩

/-- Safety of `url_to_relpath`: whenever it succeeds, the resulting relative
path is non-empty, has no leading slash, and contains no `..` substring. -/
theorem url_to_relpath_safe (nOK : Str → Bool) (url base_path rel : Str)
    (h : url_to_relpath nOK url base_path = .ok rel) :
    rel ≠ [] ∧ rel.head? ≠ some '/' ∧ containsDotDot rel = false := by
  rcases hp : urlparseE nOK url with e | p
  · simp only [url_to_relpath, hp, ebind_err] at h
    cases h
  · simp only [url_to_relpath, hp, ebind_ok] at h
    injection h with h2
    subst h2
    exact relpath_out_safe _ (by
      split <;> split <;> exact pyLstripSlash_head _)

theorem ebind_ok2 {α β : Type} (a : α) (f : α → Except Unit β) :
    (Except.ok a : Except Unit α) >>= f = f a := rfl

theorem removeUnsafe_id (l : Str) (h : ∀ c ∈ l, isUnsafeChar c = false) :
    removeUnsafe l = l := by
  unfold removeUnsafe
  rw [List.filter_eq_self]
  intro a ha
  simp [h a ha]

theorem lstripC0_cons_of (c : Char) (r : Str) (h : isC0OrSpace c = false) :
    lstripC0 (c :: r) = c :: r := by
  unfold lstripC0
  rw [List.dropWhile_cons, if_neg (by simp [h])]

theorem lsplitChar_append_no (c : Char) (a : Str) (hall : a.all (fun x => ¬ x = c) = true) :
    ∀ r, lsplitChar c (a ++ c :: r) = some (a, r) := by
  induction a with
  | nil => intro r; simp [lsplitChar]
  | cons x xs ih =>
    intro r
    rw [List.all_cons] at hall
    rcases Bool.and_eq_true_iff.mp hall with ⟨hx, hxs⟩
    rw [List.cons_append, lsplitChar]
    rw [if_neg (by simpa using hx)]
    rw [ih hxs r]

theorem takeWhile_append_all (p : Char → Bool) (l r : Str) (h : l.all p = true) :
    (l ++ r).takeWhile p = l ++ r.takeWhile p := by
  induction l with
  | nil => simp
  | cons x xs ih =>
    rw [List.all_cons] at h
    rcases Bool.and_eq_true_iff.mp h with ⟨hx, hxs⟩
    rw [List.cons_append, List.takeWhile_cons, if_pos hx, ih hxs, List.cons_append]

theorem dropWhile_append_all (p : Char → Bool) (l r : Str) (h : l.all p = true) :
    (l ++ r).dropWhile p = r.dropWhile p := by
  induction l with
  | nil => simp
  | cons x xs ih =>
    rw [List.all_cons] at h
    rcases Bool.and_eq_true_iff.mp h with ⟨hx, hxs⟩
    rw [List.cons_append, List.dropWhile_cons, if_pos hx, ih hxs]

theorem contains_eq_false_of_all (c : Char) (l : Str) (h : l.all (fun x => ¬ x = c) = true) :
    l.contains c = false := by
  induction l with
  | nil => rfl
  | cons x xs ih =>
    rw [List.all_cons] at h
    rcases Bool.and_eq_true_iff.mp h with ⟨hx, hxs⟩
    have hxc : ¬ (x = c) := by simpa using hx
    simp only [List.contains_cons, Bool.or_eq_false_iff]
    constructor
    · simpa using fun hh => hxc hh.symm
    · exact ih hxs

theorem rsplitChar_shape (c : Char) (l a b : Str) (h : rsplitChar c l = some (a, b)) :
    l = a ++ c :: b := by
  induction l generalizing a b with
  | nil => cases h
  | cons x xs ih =>
    rw [rsplitChar] at h
    rcases hr : rsplitChar c xs with _ | ⟨a2, b2⟩
    · rw [hr] at h
      by_cases hx : x = c
      · rw [if_pos hx] at h
        injection h with h2
        injection h2 with h3 h4
        rw [← h3, ← h4, hx]
        rfl
      · rw [if_neg hx] at h
        cases h
    · rw [hr] at h
      injection h with h2
      injection h2 with h3 h4
      rw [← h3, ← h4, List.cons_append]
      rw [ih a2 b2 hr]

theorem mem_of_getLast?_eq (l : Str) (c : Char) (h : l.getLast? = some c) : c ∈ l := by
  induction l with
  | nil => cases h
  | cons x xs ih =>
    rcases xs with _ | ⟨y, ys⟩
    · have h2 : x = c := by simpa using h
      subst h2
      exact List.mem_singleton_self x
    · rw [List.getLast?_cons_cons] at h
      exact List.mem_cons_of_mem x (ih h)

theorem getLast?_append_right (l r : Str) (h : r ≠ []) : (l ++ r).getLast? = r.getLast? := by
  induction l with
  | nil => rfl
  | cons x xs ih =>
    rw [List.cons_append]
    rcases hxs : xs ++ r with _ | ⟨z, zs⟩
    · exact absurd (List.append_eq_nil.mp hxs).2 h
    · rw [List.getLast?_cons_cons, ← hxs, ih]

theorem splitext_last_slash (l : Str) (h : l.getLast? = some '/') :
    (splitext l).2 = [] := by
  unfold splitext
  rcases hr : rsplitChar '.' l with _ | ⟨a, b⟩
  · rfl
  · dsimp only
    have hshape := rsplitChar_shape '.' l a b hr
    rcases hb : b with _ | ⟨y, ys⟩
    · subst hb
      rw [hshape, List.getLast?_concat] at h
      injection h with h2
      exact absurd h2 (by decide)
    · subst hb
      have hmem : '/' ∈ y :: ys := by
        rw [hshape] at h
        rw [getLast?_append_right a ('.' :: y :: ys) (by simp)] at h
        rw [List.getLast?_cons_cons] at h
        exact mem_of_getLast?_eq _ _ h
      have hcont : (y :: ys).contains '/' = true := List.elem_eq_true_of_mem hmem
      rw [if_pos hcont]

theorem lstripC0_append_of (a r : Str) (c : Char) (hh : a.head? = some c)
    (h : isC0OrSpace c = false) : lstripC0 (a ++ r) = a ++ r := by
  rcases a with _ | ⟨x, xs⟩
  · cases hh
  · injection hh with h2
    rw [List.cons_append]
    exact lstripC0_cons_of x (xs ++ r) (by rw [h2]; exact h)

theorem urlsplitE_reparse (nOK : Str → Bool) (scheme netloc path1 : Str)
    (hs : scheme = s2l "http" ∨ scheme = s2l "https")
    (hnet : netloc.all (fun c => ¬ isNetlocStop c ∧ ¬ isUnsafeChar c) = true)
    (hb : badNetloc netloc = false)
    (hok : nOK netloc = true)
    (h1 : path1.take 1 = ['/'])
    (hclean : path1.all (fun c => ¬ c = '#' ∧ ¬ c = '?' ∧ ¬ isUnsafeChar c) = true) :
    urlsplitE nOK (scheme ++ ':' :: '/' :: '/' :: (netloc ++ path1)) =
      .ok (scheme, netloc, path1, [], []) := by
  have hpt : ∃ t, path1 = '/' :: t := by
    rcases path1 with _ | ⟨c, cs⟩
    · cases h1
    · have hc : c = '/' := by
        have : [c] = ['/'] := h1
        injection this
      exact ⟨cs, by rw [hc]⟩
  obtain ⟨t, ht⟩ := hpt
  have hlstrip : lstripC0 (scheme ++ ':' :: '/' :: '/' :: (netloc ++ path1)) =
      scheme ++ ':' :: '/' :: '/' :: (netloc ++ path1) := by
    rcases hs with h | h <;> subst h <;>
      exact lstripC0_append_of _ _ 'h' (by decide) (by decide)
  have hrm : removeUnsafe (scheme ++ ':' :: '/' :: '/' :: (netloc ++ path1)) =
      scheme ++ ':' :: '/' :: '/' :: (netloc ++ path1) := by
    apply removeUnsafe_id
    intro c hc
    rw [List.mem_append] at hc
    rcases hc with hc | hc
    · have hall : scheme.all (fun c => ¬ isUnsafeChar c) = true := by
        rcases hs with h | h <;> subst h <;> decide
      have := List.all_eq_true.mp hall c hc
      simpa using this
    · simp only [List.mem_cons, List.mem_append] at hc
      rcases hc with rfl | rfl | rfl | hc | hc
      · rfl
      · rfl
      · rfl
      · have := List.all_eq_true.mp hnet c hc
        simp only [decide_eq_true_eq] at this
        simpa using this.2
      · have := List.all_eq_true.mp hclean c hc
        simp only [decide_eq_true_eq] at this
        simpa using this.2.2
  have hss : splitScheme (scheme ++ ':' :: '/' :: '/' :: (netloc ++ path1)) =
      (scheme, '/' :: '/' :: (netloc ++ path1)) := by
    unfold splitScheme
    rw [lsplitChar_append_no ':' scheme
      (by rcases hs with h | h <;> subst h <;> decide) _]
    dsimp only
    rw [if_pos (show scheme ≠ [] ∧ headIsAsciiAlpha scheme = true ∧
        scheme.all (fun c => isSchemeChar c) = true by
      rcases hs with h | h <;> subst h <;> exact ⟨by decide, by decide, by decide⟩)]
    have hmap : scheme.map asciiLower = scheme := by
      rcases hs with h | h <;> subst h <;> decide
    rw [hmap]
  have hnetAll : netloc.all (fun c => ¬ isNetlocStop c) = true := by
    rw [List.all_eq_true]
    intro c hc
    have := List.all_eq_true.mp hnet c hc
    simp only [decide_eq_true_eq] at this ⊢
    exact this.1
  have hsn : splitNetloc (netloc ++ path1) = (netloc, path1) := by
    unfold splitNetloc
    rw [ht, takeWhile_append_all _ _ _ hnetAll, dropWhile_append_all _ _ _ hnetAll]
    rw [List.takeWhile_cons, if_neg (by decide), List.dropWhile_cons, if_neg (by decide)]
    rw [List.append_nil]
  have hcontH : path1.contains '#' = false := by
    apply contains_eq_false_of_all
    rw [List.all_eq_true]
    intro c hc
    have := List.all_eq_true.mp hclean c hc
    simp only [decide_eq_true_eq] at this ⊢
    exact this.1
  have hcontQ : path1.contains '?' = false := by
    apply contains_eq_false_of_all
    rw [List.all_eq_true]
    intro c hc
    have := List.all_eq_true.mp hclean c hc
    simp only [decide_eq_true_eq] at this ⊢
    exact this.2.1
  unfold urlsplitE
  dsimp only
  rw [hlstrip, hrm, hss]
  dsimp only
  rw [if_pos (show List.take 2 ('/' :: '/' :: (netloc ++ path1)) = ['/', '/'] from rfl)]
  rw [show List.drop 2 ('/' :: '/' :: (netloc ++ path1)) = netloc ++ path1 from rfl]
  rw [hsn]
  dsimp only
  rw [if_neg (by rw [hb]; exact Bool.false_ne_true)]
  rw [if_neg (not_not_intro hok)]
  rw [hcontH]
  simp only [Bool.false_eq_true, if_false]
  rw [hcontQ]
  simp only [Bool.false_eq_true, if_false]

theorem urlparse_reparse (nOK : Str → Bool) (scheme netloc path1 : Str)
    (hs : scheme = s2l "http" ∨ scheme = s2l "https")
    (hnet : netloc.all (fun c => ¬ isNetlocStop c ∧ ¬ isUnsafeChar c) = true)
    (hb : badNetloc netloc = false)
    (hok : nOK netloc = true)
    (h1 : path1.take 1 = ['/'])
    (hclean : path1.all (fun c => ¬ c = '#' ∧ ¬ c = '?' ∧ ¬ c = ';' ∧ ¬ isUnsafeChar c) = true) :
    urlparseE nOK (scheme ++ ':' :: '/' :: '/' :: (netloc ++ path1)) =
      .ok ⟨scheme, netloc, path1, [], [], []⟩ := by
  have hclean2 : path1.all (fun c => ¬ c = '#' ∧ ¬ c = '?' ∧ ¬ isUnsafeChar c) = true := by
    rw [List.all_eq_true]
    intro c hc
    have := List.all_eq_true.mp hclean c hc
    simp only [decide_eq_true_eq] at this ⊢
    exact ⟨this.1, this.2.1, this.2.2.2⟩
  have hcontS : path1.contains ';' = false := by
    apply contains_eq_false_of_all
    rw [List.all_eq_true]
    intro c hc
    have := List.all_eq_true.mp hclean c hc
    simp only [decide_eq_true_eq] at this ⊢
    exact this.2.2.1
  unfold urlparseE
  rw [urlsplitE_reparse nOK scheme netloc path1 hs hnet hb hok h1 hclean2, ebind_ok2]
  dsimp only
  rw [hcontS]
  simp only [Bool.and_false, Bool.false_eq_true, if_false]

theorem normalize_reparse (nOK : Str → Bool) (scheme netloc path1 : Str)
    (hs : scheme = s2l "http" ∨ scheme = s2l "https")
    (hn : netloc ≠ [])
    (hnet : netloc.all (fun c => ¬ isNetlocStop c ∧ ¬ isUnsafeChar c) = true)
    (hb : badNetloc netloc = false)
    (hok : nOK netloc = true)
    (h1 : path1.take 1 = ['/'])
    (hclean : path1.all (fun c => ¬ c = '#' ∧ ¬ c = '?' ∧ ¬ c = ';' ∧ ¬ isUnsafeChar c) = true)
    (hend : (splitext path1).2 ≠ [] ∨ path1.getLast? = some '/') :
    normalize_url nOK (scheme ++ ':' :: '/' :: '/' :: (netloc ++ path1)) =
      .ok (scheme ++ ':' :: '/' :: '/' :: (netloc ++ path1)) := by
  have hp1ne : path1 ≠ [] := by
    intro h0
    rw [h0] at h1
    cases h1
  have hallow : ALLOWED_SCHEMES.contains scheme = true := by
    rcases hs with h | h <;> subst h <;> decide
  unfold normalize_url
  rw [urlparse_reparse nOK scheme netloc path1 hs hnet hb hok h1 hclean, ebind_ok2]
  dsimp only
  rw [if_neg (not_not_intro hallow)]
  rw [if_neg hp1ne]
  have hcond : ¬ ((splitext path1).2 = [] ∧ path1.getLast? ≠ some '/') := by
    rcases hend with he | he
    · exact fun hcon => he hcon.1
    · exact fun hcon => hcon.2 he
  rw [if_neg hcond]
  have huu : urlunparse ⟨scheme, netloc, path1, [], [], []⟩ =
      scheme ++ ':' :: '/' :: '/' :: (netloc ++ path1) := by
    unfold urlunparse
    dsimp only
    rw [if_neg (show ¬ (([] : Str) ≠ []) from not_not_intro rfl)]
    unfold urlunsplit
    dsimp only
    rw [if_pos (show netloc ≠ [] ∨ (scheme ≠ [] ∧ uses_netloc.contains scheme = true ∧
        path1.take 2 ≠ ['/', '/']) from Or.inl hn)]
    rw [if_neg (show ¬ (path1 ≠ [] ∧ path1.take 1 ≠ ['/']) from fun hcon => hcon.2 h1)]
    rw [if_pos (show scheme ≠ [] by rcases hs with h | h <;> subst h <;> decide)]
    rw [if_neg (show ¬ (([] : Str) ≠ []) from not_not_intro rfl)]
    rw [if_neg (show ¬ (([] : Str) ≠ []) from not_not_intro rfl)]
  rw [huu]

theorem ebind_err2 {α β : Type} (e : Unit) (f : α → Except Unit β) :
    (Except.error e : Except Unit α) >>= f = Except.error e := rfl

theorem urlsplitE_ok_netloc_facts (nOK : Str → Bool) (u : Str)
    (t : Str × Str × Str × Str × Str) (h : urlsplitE nOK u = .ok t) :
    badNetloc t.2.1 = false ∧ nOK t.2.1 = true := by
  unfold urlsplitE at h
  dsimp only at h
  set U2 := (splitScheme (removeUnsafe (lstripC0 u))).2 with hU2
  set NL := (if U2.take 2 = ['/', '/'] then splitNetloc (U2.drop 2) else ([], U2)) with hNL
  cases hbv : badNetloc NL.1 with
  | true =>
    rw [if_pos hbv] at h
    cases h
  | false =>
    rw [if_neg (by rw [hbv]; exact Bool.false_ne_true)] at h
    cases hnv : nOK NL.1 with
    | false =>
      rw [if_pos (by rw [hnv]; exact Bool.false_ne_true)] at h
      cases h
    | true =>
      rw [if_neg (not_not_intro hnv)] at h
      injection h with h2
      rw [← h2]
      exact ⟨hbv, hnv⟩

theorem urlparseE_ok_netloc_facts (nOK : Str → Bool) (u : Str) (p : Parsed)
    (h : urlparseE nOK u = .ok p) :
    badNetloc p.netloc = false ∧ nOK p.netloc = true := by
  unfold urlparseE at h
  rcases ht : urlsplitE nOK u with e | t
  · rw [ht, ebind_err2] at h
    cases h
  · obtain ⟨s, n, pa, q, f⟩ := t
    rw [ht, ebind_ok2] at h
    dsimp only at h
    injection h with h2
    have hf := urlsplitE_ok_netloc_facts nOK u (s, n, pa, q, f) ht
    dsimp only at hf
    rw [← h2]
    exact hf

theorem urlunparse_netloc (scheme netloc path1 : Str) (hn : netloc ≠ [])
    (hsch : scheme ≠ []) (h1 : path1.take 1 = ['/']) :
    urlunparse ⟨scheme, netloc, path1, [], [], []⟩ =
      scheme ++ ':' :: '/' :: '/' :: (netloc ++ path1) := by
  unfold urlunparse
  dsimp only
  rw [if_neg (show ¬ (([] : Str) ≠ []) from not_not_intro rfl)]
  unfold urlunsplit
  dsimp only
  rw [if_pos (show netloc ≠ [] ∨ (scheme ≠ [] ∧ uses_netloc.contains scheme = true ∧
      path1.take 2 ≠ ['/', '/']) from Or.inl hn)]
  rw [if_neg (show ¬ (path1 ≠ [] ∧ path1.take 1 ≠ ['/']) from fun hcon => hcon.2 h1)]
  rw [if_pos hsch]
  rw [if_neg (show ¬ (([] : Str) ≠ []) from not_not_intro rfl)]
  rw [if_neg (show ¬ (([] : Str) ≠ []) from not_not_intro rfl)]

theorem normalize_url_idem (nOK : Str → Bool) (u v : Str) (p : Parsed)
    (hp : urlparseE nOK u = .ok p)
    (hsc : ALLOWED_SCHEMES.contains p.scheme = true)
    (hn : p.netloc ≠ [])
    (hnet : p.netloc.all (fun c => ¬ isNetlocStop c ∧ ¬ isUnsafeChar c) = true)
    (hslash : p.path = [] ∨ p.path.take 1 = ['/'])
    (hpclean : p.path.all (fun c => ¬ c = '#' ∧ ¬ c = '?' ∧ ¬ c = ';' ∧ ¬ isUnsafeChar c) = true)
    (hpar : p.params = [])
    (hv : normalize_url nOK u = .ok v) :
    normalize_url nOK v = .ok v := by
  obtain ⟨hb, hok⟩ := urlparseE_ok_netloc_facts nOK u p hp
  have hs : p.scheme = s2l "http" ∨ p.scheme = s2l "https" := by
    have hmem : p.scheme ∈ ALLOWED_SCHEMES := List.mem_of_elem_eq_true hsc
    unfold ALLOWED_SCHEMES at hmem
    rcases List.mem_cons.mp hmem with h | hmem2
    · exact Or.inl h
    · rcases List.mem_cons.mp hmem2 with h | hmem3
      · exact Or.inr h
      · cases hmem3
  have hschne : p.scheme ≠ [] := by
    rcases hs with h | h <;> rw [h] <;> decide
  unfold normalize_url at hv
  rw [hp, ebind_ok2] at hv
  dsimp only at hv
  rw [if_neg (not_not_intro hsc), hpar] at hv
  set P0 := (if p.path = [] then ['/'] else p.path) with hP0
  have h0slash : P0.take 1 = ['/'] := by
    rw [hP0]
    rcases hslash with h | h
    · rw [if_pos h]
      rfl
    · have hne : p.path ≠ [] := by
        intro h0
        rw [h0] at h
        cases h
      rw [if_neg hne]
      exact h
  have h0clean : P0.all (fun c => ¬ c = '#' ∧ ¬ c = '?' ∧ ¬ c = ';' ∧ ¬ isUnsafeChar c) = true := by
    rw [hP0]
    split
    · decide
    · exact hpclean
  set P1 := (if (splitext P0).2 = [] ∧ P0.getLast? ≠ some '/' then P0 ++ ['/'] else P0) with hP1
  have h1slash : P1.take 1 = ['/'] := by
    rw [hP1]
    split
    · obtain ⟨t, ht⟩ : ∃ t, P0 = '/' :: t := by
        rcases hq : P0 with _ | ⟨c, cs⟩
        · rw [hq] at h0slash
          cases h0slash
        · rw [hq] at h0slash
          have : [c] = ['/'] := h0slash
          injection this with hc _
          exact ⟨cs, by rw [hc]⟩
      rw [ht, List.cons_append]
      rfl
    · exact h0slash
  have h1clean : P1.all (fun c => ¬ c = '#' ∧ ¬ c = '?' ∧ ¬ c = ';' ∧ ¬ isUnsafeChar c) = true := by
    rw [hP1]
    split
    · rw [List.all_append, h0clean]
      decide
    · exact h0clean
  have h1end : (splitext P1).2 ≠ [] ∨ P1.getLast? = some '/' := by
    rw [hP1]
    split
    · exact Or.inr (List.getLast?_concat _)
    · rename_i hcon
      by_cases he : (splitext P0).2 = []
      · by_cases hl : P0.getLast? = some '/'
        · exact Or.inr hl
        · exact absurd ⟨he, hl⟩ hcon
      · exact Or.inl he
  rw [urlunparse_netloc p.scheme p.netloc P1 hn hschne h1slash] at hv
  injection hv with hv2
  rw [← hv2]
  exact normalize_reparse nOK p.scheme p.netloc P1 hs hn hnet hb hok h1slash h1clean h1end

theorem normalize_url_qf (nOK : Str → Bool) (u1 u2 : Str) (p1 p2 : Parsed)
    (hp1 : urlparseE nOK u1 = .ok p1) (hp2 : urlparseE nOK u2 = .ok p2)
    (hs : p1.scheme = p2.scheme) (hn : p1.netloc = p2.netloc)
    (hpa : p1.path = p2.path) (hpr : p1.params = p2.params) :
    normalize_url nOK u1 = normalize_url nOK u2 := by
  unfold normalize_url
  rw [hp1, hp2, ebind_ok2, ebind_ok2]
  dsimp only
  rw [hs, hn, hpa, hpr]

theorem count_one_of_nodup_map {α : Type} (f : α → Str) (l : List α) (h : Str)
    (hnd : (l.map f).Nodup) (hmem : h ∈ l.map f) :
    (l.filter (fun r => f r = h)).length = 1 := by
  induction l with
  | nil => cases hmem
  | cons x xs ih =>
    rw [List.map_cons, List.nodup_cons] at hnd
    rw [List.map_cons, List.mem_cons] at hmem
    rw [List.filter_cons]
    by_cases hx : f x = h
    · rw [if_pos (by simpa using hx)]
      have hfil : xs.filter (fun r => f r = h) = [] := by
        apply List.filter_eq_nil_iff.mpr
        intro a ha hc
        have hc2 : f a = h := by simpa using hc
        exact hnd.1 (hx ▸ hc2 ▸ List.mem_map_of_mem f ha)
      rw [hfil]
      rfl
    · rw [if_neg (by simpa using hx)]
      apply ih hnd.2
      rcases hmem with h1 | h1
      · exact absurd h1.symm hx
      · exact h1

theorem runLoop_statsWritten (env : Env) (st : CrawlState)
    (hnone : (runLoop env st).2.2 = none) :
    Ev.statsWritten ∈ (runLoop env st).2.1 := by
  induction st using runLoop.induct env with
  | case1 x hcond hq => exact absurd hq hcond.1
  | case2 x hcond url qrest hq st0 hmem ih =>
    rw [runLoop_skip env x url qrest hq hcond.2 hmem] at hnone ⊢
    exact ih hnone
  | case3 x hcond url qrest hq st0 hmem hrob ih =>
    rw [runLoop_robots env x url qrest hq hcond.2 hmem hrob] at hnone ⊢
    exact ih hnone
  | case4 x hcond url qrest hq st0 hmem hrob st1 hfetch ih =>
    rw [runLoop_fail env x url qrest hq hcond.2 hmem (not_not.mp hrob) hfetch] at hnone ⊢
    exact List.mem_cons_of_mem _ (List.mem_cons_of_mem _ (ih hnone))
  | case5 x hcond url qrest hq st0 hmem hrob html hfetch e herr =>
    rw [runLoop_relpathErr env x url qrest hq hcond.2 hmem (not_not.mp hrob) html hfetch
      e herr] at hnone
    cases hnone
  | case6 x hcond url qrest hq st0 hmem hrob html hfetch rel hrel e herr =>
    rw [runLoop_extractErr env x url qrest hq hcond.2 hmem (not_not.mp hrob) html hfetch
      rel hrel e herr] at hnone
    cases hnone
  | case7 x hcond url qrest hq st0 hmem hrob st1 html hfetch rel hrel text title hext htmlRel txtRel wr st2 e herr =>
    rw [runLoop_enqErr env x url qrest hq hcond.2 hmem (not_not.mp hrob) html hfetch rel hrel
      text title hext e herr] at hnone
    cases hnone
  | case8 x hcond url qrest hq st0 hmem hrob st1 html hfetch rel hrel text title hext htmlRel txtRel wr st2 q1 henq st3 ih =>
    rw [runLoop_step env x url qrest hq hcond.2 hmem (not_not.mp hrob) html hfetch rel hrel
      text title hext q1 henq] at hnone ⊢
    dsimp only at hnone ⊢
    exact List.mem_cons_of_mem _ (List.mem_append_right _ (ih hnone))
  | case9 x hcond =>
    rw [runLoop_stop env x hcond]
    exact List.mem_singleton_self _

theorem initCrawler_resume_pageId (nOK : Str → Bool) (cfg : InitConfig)
    (rows : List ManiRow) (lines : List FullRec) (bn bp : Str) (st0 : CrawlState)
    (hres : cfg.resume = true) (hm : cfg.priorMani = some rows)
    (hf : cfg.priorFull = some lines)
    (hinit : initCrawler nOK cfg = .ok (bn, bp, st0)) :
    st0.pageId = lines.length ∧ st0.visited = read_existing_urls rows := by
  unfold initCrawler at hinit
  rcases hnb : normalize_url nOK cfg.baseUrlArg with e | base
  · rw [hnb, ebind_err2] at hinit
    cases hinit
  · rw [hnb, ebind_ok2] at hinit
    dsimp only at hinit
    by_cases hbe : base = []
    · rw [if_pos hbe] at hinit
      cases hinit
    · rw [if_neg hbe] at hinit
      rcases hbp : urlparseE nOK base with e | pb
      · rw [hbp, ebind_err2] at hinit
        cases hinit
      · rw [hbp, ebind_ok2] at hinit
        rcases hsq : seedQueue nOK base pb.netloc
            (if pb.path.getLast? = some '/' then pb.path else pb.path ++ ['/'])
            cfg.useSitemap cfg.sitemapO with e | q
        · rw [hsq, ebind_err2] at hinit
          cases hinit
        · rw [hsq, ebind_ok2] at hinit
          rw [hres, hm, hf] at hinit
          injection hinit with h2
          injection h2 with h3 h4
          injection h4 with h5 h6
          rw [← h6]
          exact ⟨rfl, rfl⟩

/-- Concrete URLs, states and environments used for the closed witness and
counterexample runs below. -/
def u0 : Str := s2l "http://h/"

def uB : Str := s2l "http://h/b.html"

def uC : Str := s2l "http://h/c.html"

def stats0 : Stats := ⟨0, 0, 0, 0, 0, 0⟩

def store0 : Store := ⟨[], [], [], []⟩

def stFresh : CrawlState := ⟨[], [u0], 0, stats0, store0⟩

/-- A transport whose 200-response body is the URL itself. -/
def trEcho : Str → TranspResult := fun u => .resp 200 u

def linksC3 : Str → List Str := fun b => if b = u0 then [uB] else []

/-- Base crawl environment: echo transport, constant extraction, identity
hash, no include/exclude patterns, permissive robots. -/
def envC3 : Env :=
  { nOK := nTrue, baseNetloc := s2l "h", basePath := s2l "/", maxPages := 10,
    chunkSize := 100, chunkOverlap := 0, includeRe := none, excludeRe := none,
    canFetchO := fun _ => true, transport := trEcho,
    extractO := fun _ => .ok (s2l "X", s2l "T"), linksO := linksC3,
    joinO := fun _ h => h, H := fun s => s, saveHtml := false, saveText := false }

def cfgC3a : InitConfig := ⟨u0, false, none, none, false, []⟩

def fullX : FullRec := ⟨s2l "page-0", u0, s2l "T", 0, 1, s2l "X", s2l "X"⟩

def maniR0 : ManiRow := ⟨s2l "page-0", u0, s2l "T", [], [], 1⟩

def maniR1 : ManiRow := ⟨s2l "page-1", uB, s2l "T", [], [], 1⟩

def stA1 : CrawlState :=
  ⟨[u0], [uB], 1, ⟨1, 0, 0, 1, 0, 0⟩,
   ⟨[s2l "X"], [fullX], [⟨s2l "page-0", s2l "X"⟩], [maniR0]⟩⟩

def stA2 : CrawlState :=
  ⟨[u0, uB], [], 2, ⟨2, 0, 0, 2, 1, 0⟩,
   ⟨[s2l "X"], [fullX], [⟨s2l "page-0", s2l "X"⟩], [maniR0, maniR1]⟩⟩

theorem initC3a_eval : initCrawler nTrue cfgC3a = .ok (s2l "h", s2l "/", stFresh) := rfl

theorem runC3a_eval : runLoop envC3 stFresh =
    (stA2,
     [Ev.fetchCall u0, Ev.chunkProduced (s2l "X"), Ev.pageDone 0,
      Ev.fetchCall uB, Ev.chunkProduced (s2l "X"), Ev.pageDone 1, Ev.statsWritten],
     none) := by
  have h1 : runLoop envC3 stFresh =
      ((runLoop envC3 stA1).1,
       Ev.fetchCall u0 :: (([Ev.chunkProduced (s2l "X")] ++ [Ev.pageDone 0]) ++
         (runLoop envC3 stA1).2.1),
       (runLoop envC3 stA1).2.2) :=
    runLoop_step envC3 stFresh u0 [] rfl (by decide) (by decide) rfl u0 rfl
      (s2l "index.html") (by rfl) (s2l "X") (s2l "T") rfl [uB] (by rfl)
  have h2 : runLoop envC3 stA1 =
      ((runLoop envC3 stA2).1,
       Ev.fetchCall uB :: (([Ev.chunkProduced (s2l "X")] ++ [Ev.pageDone 1]) ++
         (runLoop envC3 stA2).2.1),
       (runLoop envC3 stA2).2.2) :=
    runLoop_step envC3 stA1 uB [] rfl (by decide) (by decide) rfl uB rfl
      (s2l "b.html") (by rfl) (s2l "X") (s2l "T") rfl [] (by rfl)
  have h3 : runLoop envC3 stA2 = (stA2, [Ev.statsWritten], none) :=
    runLoop_stop envC3 stA2 (by decide)
  rw [h1, h2, h3]
  rfl

def cfgC3b : InitConfig := ⟨u0, true, some [maniR0, maniR1], some [fullX], true, [uC]⟩

def stC3b : CrawlState := ⟨[u0, uB], [u0, uC], 1, stats0, store0⟩

def stB1 : CrawlState := ⟨[u0, uB], [uC], 1, stats0, store0⟩

def fullC : FullRec := ⟨s2l "page-1", uC, s2l "T", 0, 1, s2l "X", s2l "X"⟩

def maniC : ManiRow := ⟨s2l "page-1", uC, s2l "T", [], [], 1⟩

def stB2 : CrawlState :=
  ⟨[u0, uB, uC], [], 2, ⟨1, 0, 0, 1, 0, 0⟩,
   ⟨[s2l "X"], [fullC], [⟨s2l "page-1", s2l "X"⟩], [maniC]⟩⟩

theorem initC3b_eval : initCrawler nTrue cfgC3b = .ok (s2l "h", s2l "/", stC3b) := rfl

theorem runC3b_eval : runLoop envC3 stC3b =
    (stB2, [Ev.fetchCall uC, Ev.chunkProduced (s2l "X"), Ev.pageDone 1, Ev.statsWritten],
     none) := by
  have h0 : runLoop envC3 stC3b = runLoop envC3 (popSt stC3b [uC]) :=
    runLoop_skip envC3 stC3b u0 [uC] rfl (by decide) (by decide)
  have h1 : runLoop envC3 stB1 =
      ((runLoop envC3 stB2).1,
       Ev.fetchCall uC :: (([Ev.chunkProduced (s2l "X")] ++ [Ev.pageDone 1]) ++
         (runLoop envC3 stB2).2.1),
       (runLoop envC3 stB2).2.2) :=
    runLoop_step envC3 stB1 uC [] rfl (by decide) (by decide) rfl uC rfl
      (s2l "c.html") (by rfl) (s2l "X") (s2l "T") rfl [] (by rfl)
  have h2 : runLoop envC3 stB2 = (stB2, [Ev.statsWritten], none) :=
    runLoop_stop envC3 stB2 (by decide)
  rw [h0, show popSt stC3b [uC] = stB1 from rfl, h1, h2]
  rfl

def rowC1 (u : Str) : ManiRow := ⟨[], u, [], [], [], 0⟩

def uA1 : Str := s2l "http://h/a1.html"

def uA2 : Str := s2l "http://h/a2.html"

def uA3 : Str := s2l "http://h/a3.html"

def cfgC1 : InitConfig := ⟨u0, true, some [rowC1 uA1, rowC1 uA2, rowC1 uA3], some [], false, []⟩

def envC1 : Env := { envC3 with maxPages := 2 }

def stC1 : CrawlState := ⟨[uA1, uA2, uA3], [u0], 0, stats0, store0⟩

theorem initC1_eval : initCrawler nTrue cfgC1 = .ok (s2l "h", s2l "/", stC1) := rfl

theorem runC1_eval : runLoop envC1 stC1 = (stC1, [Ev.statsWritten], none) :=
  runLoop_stop envC1 stC1 (by decide)

def envC5 : Env :=
  { envC3 with
    extractO := fun _ => .ok ([], s2l "T"),
    linksO := fun _ => [], joinO := fun _ _ => u0 }

def stC5f : CrawlState := ⟨[u0], [], 1, ⟨1, 0, 0, 0, 0, 0⟩, store0⟩

theorem runC5_eval : runLoop envC5 stFresh =
    (stC5f, [Ev.fetchCall u0, Ev.pageDone 0, Ev.statsWritten], none) := by
  have h1 : runLoop envC5 stFresh =
      ((runLoop envC5 stC5f).1,
       Ev.fetchCall u0 :: (([] ++ [Ev.pageDone 0]) ++ (runLoop envC5 stC5f).2.1),
       (runLoop envC5 stC5f).2.2) :=
    runLoop_step envC5 stFresh u0 [] rfl (by decide) (by decide) rfl u0 rfl
      (s2l "index.html") (by rfl) [] (s2l "T") rfl [] (by rfl)
  have h2 : runLoop envC5 stC5f = (stC5f, [Ev.statsWritten], none) :=
    runLoop_stop envC5 stC5f (by decide)
  rw [h1, h2]
  rfl

theorem mainC5_eval : mainModel envC5 cfgC3a =
    ([Ev.fetchCall u0, Ev.pageDone 0, Ev.statsWritten], 0) := by
  unfold mainModel
  rw [show initCrawler envC5.nOK cfgC3a = .ok (s2l "h", s2l "/", stFresh) from rfl]
  dsimp only
  rw [show { envC5 with baseNetloc := s2l "h", basePath := s2l "/" } = envC5 from rfl]
  rw [runC5_eval]

def envC67 : Env :=
  { envC3 with
    extractO := fun _ => .error (),
    linksO := fun _ => [], joinO := fun _ _ => u0 }

theorem runC67_eval : runLoop envC67 stFresh =
    (visSt stFresh u0 [], [Ev.fetchCall u0], some ()) :=
  runLoop_extractErr envC67 stFresh u0 [] rfl (by decide) (by decide) rfl u0 rfl
    (s2l "index.html") (by rfl) () rfl

theorem mainC67_eval : mainModel envC67 cfgC3a = ([Ev.fetchCall u0], 1) := by
  unfold mainModel
  rw [show initCrawler envC67.nOK cfgC3a = .ok (s2l "h", s2l "/", stFresh) from rfl]
  dsimp only
  rw [show { envC67 with baseNetloc := s2l "h", basePath := s2l "/" } = envC67 from rfl]
  rw [runC67_eval]

def envC4 : Env :=
  { envC3 with
    linksO := fun _ => [s2l "x", s2l "x"],
    joinO := fun _ _ => uB, canFetchO := fun _ => false }

/-- C1 (amended): within a run the crawl loop never fetches a URL twice —
the fetched URLs are pairwise distinct, each was absent from the visited
set at pop time and lands in the final visited set — and the final visited
set size is bounded by the larger of the initial visited size and
`max_pages`; the unqualified bound `|visited| ≤ max_pages` fails when a
resumed manifest preloads more than `max_pages` URLs. -/
theorem C1_no_double_fetch_visited_bound (env : Env) (st : CrawlState) :
    (fetchedUrls (runLoop env st).2.1).Nodup ∧
    (∀ u ∈ fetchedUrls (runLoop env st).2.1,
      u ∉ st.visited ∧ u ∈ (runLoop env st).1.visited) ∧
    (runLoop env st).1.visited.length ≤ max st.visited.length env.maxPages := by
  obtain ⟨a, b, c, d⟩ := runLoop_fetch_inv env st
  exact ⟨a, b, d⟩

/-- C1 counterexample: resuming from a manifest holding 3 distinct URLs with
`max_pages = 2` gives a run whose visited set has 3 > 2 members, violating
the claimed `|visited| ≤ max_pages`. -/
theorem C1_counterexample :
    initCrawler nTrue cfgC1 = .ok (s2l "h", s2l "/", stC1) ∧
    stC1.visited.length = 3 ∧ envC1.maxPages = 2 ∧
    (runLoop envC1 stC1).1.visited.length = 3 ∧
    ¬ (runLoop envC1 stC1).1.visited.length ≤ envC1.maxPages := by
  refine ⟨initC1_eval, by decide, rfl, ?_, ?_⟩
  · rw [runC1_eval]
    decide
  · rw [runC1_eval]
    decide

/-- C2 (confirmed): in any run whose starting store satisfies the dedup
invariant with a consistent written/deduped accounting, every chunk hash
produced during the run has exactly one record in the full stream, the
minimal stream mirrors the full stream, `chunks_written` equals records
written plus duplicates discarded, and admitting a hash already in the
dedup set leaves the store unchanged while counting one duplicate. -/
theorem C2_dedup_exactly_once (env : Env) (st : CrawlState)
    (hInv : DedupInv env.H st.store)
    (hacc : st.stats.chunks_written = st.store.fullLines.length + st.stats.chunks_deduped) :
    (∀ h, Ev.chunkProduced h ∈ (runLoop env st).2.1 →
      ((runLoop env st).1.store.fullLines.filter (fun (r : FullRec) => r.hash = h)).length = 1) ∧
    (runLoop env st).1.store.minLines = (runLoop env st).1.store.fullLines.map toMin ∧
    ((runLoop env st).1.stats.chunks_written
      = (runLoop env st).1.store.fullLines.length + (runLoop env st).1.stats.chunks_deduped) ∧
    (∀ pid tot u t ci ck, env.H ck ∈ (runLoop env st).1.store.chunkHashes →
      writeChunk env.H pid tot u t (runLoop env st).1.store ci ck
        = ((runLoop env st).1.store, 1)) := by
  obtain ⟨dInv, dacc, dmono, dprod⟩ := runLoop_dedup_inv env st hInv hacc
  obtain ⟨n1, n2, n3, n4⟩ := dInv
  refine ⟨?_, n3, dacc, ?_⟩
  · intro h hh
    have hh2 : h ∈ (runLoop env st).1.store.chunkHashes := dprod h hh
    have hh3 : h ∈ (runLoop env st).1.store.fullLines.map (fun (r : FullRec) => r.hash) :=
      (n2 h).mp hh2
    exact count_one_of_nodup_map (fun (r : FullRec) => r.hash) _ h n1 hh3
  · intro pid tot u t ci ck hmem
    exact writeChunk_dup env.H pid tot u t _ ci ck hmem

/-- C2 witness: the dedup accounting instantiated on a concrete two-page
run from a fresh store. -/
theorem C2_witness :
    (runLoop envC3 stFresh).1.stats.chunks_written
      = (runLoop envC3 stFresh).1.store.fullLines.length
        + (runLoop envC3 stFresh).1.stats.chunks_deduped :=
  (C2_dedup_exactly_once envC3 stFresh
    ⟨List.nodup_nil,
     fun h => ⟨fun hc => absurd hc (List.not_mem_nil h), fun hc => absurd hc (List.not_mem_nil h)⟩,
     rfl,
     fun r hr => absurd hr (List.not_mem_nil r)⟩
    rfl).2.2.1

/-- C3 (amended): the pageIds assigned in a run are the consecutive
integers from the starting id (hence strictly increasing and unique per
run), and a resumed run starts at the LINE COUNT of the prior
corpus_full.jsonl; because deduplication can make that count smaller than
the number of previously assigned ids, ids CAN be reused across a resume. -/
theorem C3_pageIds_monotone_resume (env : Env) (st : CrawlState) (nOK : Str → Bool)
    (cfg : InitConfig) (rows : List ManiRow) (lines : List FullRec)
    (bn bp : Str) (st0 : CrawlState)
    (hres : cfg.resume = true) (hm : cfg.priorMani = some rows)
    (hf : cfg.priorFull = some lines)
    (hinit : initCrawler nOK cfg = .ok (bn, bp, st0)) :
    pageDoneIds (runLoop env st).2.1
      = List.range' st.pageId ((runLoop env st).1.pageId - st.pageId) ∧
    (pageDoneIds (runLoop env st).2.1).Nodup ∧
    st0.pageId = lines.length := by
  obtain ⟨h1, h2⟩ := runLoop_pageIds env st
  refine ⟨h1, ?_, (initCrawler_resume_pageId nOK cfg rows lines bn bp st0 hres hm hf hinit).1⟩
  rw [h1]
  exact List.nodup_range' _ _

/-- C3 witness: the amended statement instantiated on a concrete fresh run
and a resume from empty prior files. -/
theorem C3_witness :
    pageDoneIds (runLoop envC3 stFresh).2.1
      = List.range' stFresh.pageId ((runLoop envC3 stFresh).1.pageId - stFresh.pageId) ∧
    (pageDoneIds (runLoop envC3 stFresh).2.1).Nodup ∧
    stFresh.pageId = ([] : List FullRec).length :=
  C3_pageIds_monotone_resume envC3 stFresh nTrue ⟨u0, true, some [], some [], false, []⟩
    [] [] (s2l "h") (s2l "/") stFresh rfl rfl rfl (by rfl)

/-- C3 counterexample: a fresh run assigns pageIds 0 and 1 but dedup leaves
only one line in corpus_full.jsonl; the resumed run therefore starts at
pageId 1 and assigns id 1 again. -/
theorem C3_counterexample :
    pageDoneIds (runLoop envC3 stFresh).2.1 = [0, 1] ∧
    (runLoop envC3 stFresh).1.store.fullLines = [fullX] ∧
    (runLoop envC3 stFresh).1.store.maniRows = [maniR0, maniR1] ∧
    initCrawler nTrue cfgC3b = .ok (s2l "h", s2l "/", stC3b) ∧
    stC3b.pageId = 1 ∧
    pageDoneIds (runLoop envC3 stC3b).2.1 = [1] ∧
    1 ∈ pageDoneIds (runLoop envC3 stFresh).2.1 := by
  rw [runC3a_eval, runC3b_eval]
  exact ⟨by decide, rfl, rfl, initC3b_eval, rfl, by decide, by decide⟩

/-- C4 (amended): a discovered link is enqueued iff it survives
`linkDecision` — mailto/javascript skip, nonempty normalization, absence
from the VISITED set only, base containment, extension allow-list,
include/exclude patterns; the queue itself is NOT checked (duplicates can
be enqueued) and robots is NOT consulted at enqueue time.  The queue is
extended by exactly the accepted links, in order. -/
theorem C4_enqueue_decision (env : Env) (visited queue : List Str) (html pageUrl : Str)
    (hlink : LinkOk env) :
    ∃ q1, enqueue_links env visited queue html pageUrl = .ok q1 ∧
      q1 = queue ++ (env.linksO html).filterMap (fun href =>
        match linkDecision env visited pageUrl href with
        | .ok (some u) => some u
        | _ => none) := by
  obtain ⟨q1, h1, h2, h3⟩ := enqueue_links_ok env visited queue html pageUrl hlink
  exact ⟨q1, h1, h2⟩

/-- C4 witness: the characterization instantiated on a concrete
environment. -/
theorem C4_witness :
    ∃ q1, enqueue_links envC4 [] [] (s2l "B") (s2l "p") = .ok q1 ∧
      q1 = [] ++ (envC4.linksO (s2l "B")).filterMap (fun href =>
        match linkDecision envC4 [] (s2l "p") href with
        | .ok (some u) => some u
        | _ => none) :=
  C4_enqueue_decision envC4 [] [] (s2l "B") (s2l "p")
    (fun b h' => ⟨uB, rfl, fun _ => ⟨⟨s2l "http", s2l "h", s2l "/b.html", [], [], []⟩, rfl⟩⟩)

/-- C4 counterexample: the same href listed twice is enqueued twice (the
queue is never consulted), and the enqueued URL is one the robots policy
rejects (`can_fetch` is false for it) — refuting both the queue-absence
conjunct and the robots conjunct of the claimed enqueue condition. -/
theorem C4_counterexample :
    enqueue_links envC4 [] [] (s2l "B") (s2l "p") = .ok [uB, uB] ∧
    envC4.canFetchO uB = false := ⟨rfl, rfl⟩

/-- C5 (amended): `write_records` appends exactly one manifest row for a
page precisely when the page's text yields at least one chunk; a
successfully fetched page whose text yields no chunks gets NO manifest
row. -/
theorem C5_manifest_row (env : Env) (store : Store) (pid : Nat)
    (url title text : Str) (a b : Option Str) :
    (write_records env store pid url title text a b).1.maniRows =
      (if (if text ≠ [] then chunk_text text env.chunkSize env.chunkOverlap else []) = []
       then store.maniRows
       else store.maniRows ++ [maniRowOf pid url title text a b]) :=
  write_records_manifest env store pid url title text a b

/-- C5 counterexample: a run that successfully fetches one page whose
extracted text is empty counts it in `pages_fetched` yet writes no manifest
row, refuting "one row per successfully fetched in-scope page". -/
theorem C5_counterexample :
    (runLoop envC5 stFresh).1.stats.pages_fetched = 1 ∧
    (runLoop envC5 stFresh).1.store.maniRows = [] := by
  rw [runC5_eval]
  exact ⟨rfl, rfl⟩

/-- C6 (amended): a run that completes normally (exit code 0) has emitted
the stats.json write, and the SIGINT handler also writes stats.json before
exiting 130; but the fatal-error path exits 1 WITHOUT writing stats.json,
so "regardless of completion mode" fails. -/
theorem mainModel_err (env0 : Env) (cfg : InitConfig) (e : Unit)
    (hi : initCrawler env0.nOK cfg = .error e) : mainModel env0 cfg = ([], 1) := by
  unfold mainModel
  rw [hi]

theorem mainModel_none (env0 : Env) (cfg : InitConfig) (bn bp : Str) (st : CrawlState)
    (hi : initCrawler env0.nOK cfg = .ok (bn, bp, st))
    (hn : (runLoop { env0 with baseNetloc := bn, basePath := bp } st).2.2 = none) :
    mainModel env0 cfg =
      ((runLoop { env0 with baseNetloc := bn, basePath := bp } st).2.1, 0) := by
  unfold mainModel
  rw [hi]
  dsimp only
  rw [hn]

theorem mainModel_some (env0 : Env) (cfg : InitConfig) (bn bp : Str) (st : CrawlState)
    (e : Unit) (hi : initCrawler env0.nOK cfg = .ok (bn, bp, st))
    (hs : (runLoop { env0 with baseNetloc := bn, basePath := bp } st).2.2 = some e) :
    mainModel env0 cfg =
      ((runLoop { env0 with baseNetloc := bn, basePath := bp } st).2.1, 1) := by
  unfold mainModel
  rw [hi]
  dsimp only
  rw [hs]

theorem C6_stats_on_success (env0 : Env) (cfg : InitConfig)
    (h0 : (mainModel env0 cfg).2 = 0) :
    Ev.statsWritten ∈ (mainModel env0 cfg).1 ∧ handleSigint.1 = [Ev.statsWritten] := by
  refine ⟨?_, rfl⟩
  rcases hi : initCrawler env0.nOK cfg with e | x
  · rw [mainModel_err env0 cfg e hi] at h0
    exact absurd h0 one_ne_zero
  · obtain ⟨bn, bp, st⟩ := x
    rcases hr : (runLoop { env0 with baseNetloc := bn, basePath := bp } st).2.2 with _ | e2
    · rw [mainModel_none env0 cfg bn bp st hi hr]
      exact runLoop_statsWritten _ _ hr
    · rw [mainModel_some env0 cfg bn bp st e2 hi hr] at h0
      exact absurd h0 one_ne_zero

/-- C6 witness: a concrete normally-completing run. -/
theorem C6_witness :
    Ev.statsWritten ∈ (mainModel envC5 cfgC3a).1 ∧ handleSigint.1 = [Ev.statsWritten] :=
  C6_stats_on_success envC5 cfgC3a (by rw [mainC5_eval])

/-- C6 counterexample: an extraction error makes the run exit with code 1
and its trace contains no stats.json write. -/
theorem C6_counterexample :
    (mainModel envC67 cfgC3a).2 = 1 ∧
    Ev.statsWritten ∉ (mainModel envC67 cfgC3a).1 := by
  rw [mainC67_eval]
  exact ⟨rfl, by decide⟩

/-- C7 (amended): fetch-level failures (non-2xx status or transport
exception) are recovered locally — `pages_failed` counts exactly the
failed fetches in the trace and, provided extraction never raises and link
joining/normalization never raises, no exception escapes the crawl loop;
an extraction exception, by contrast, escapes the page boundary (see the
counterexample). -/
theorem C7_fetch_errors_recovered (env : Env) (st : CrawlState)
    (hx : ∀ s, ∃ v, env.extractO s = .ok v) (hlink : LinkOk env)
    (hq : ∀ u ∈ st.queue, ∃ p, urlparseE env.nOK u = .ok p) :
    (runLoop env st).2.2 = none ∧
    (runLoop env st).1.stats.pages_failed
      = st.stats.pages_failed + failedCount (runLoop env st).2.1 :=
  ⟨runLoop_no_escape env st hx hlink hq, runLoop_failed_count env st⟩

/-- C7 witness: a concrete exception-free run. -/
theorem C7_witness :
    (runLoop envC5 stFresh).2.2 = none ∧
    (runLoop envC5 stFresh).1.stats.pages_failed
      = stFresh.stats.pages_failed + failedCount (runLoop envC5 stFresh).2.1 :=
  C7_fetch_errors_recovered envC5 stFresh
    (fun s => ⟨([], s2l "T"), rfl⟩)
    (fun b h' => ⟨u0, rfl, fun _ => ⟨⟨s2l "http", s2l "h", s2l "/", [], [], []⟩, rfl⟩⟩)
    (fun u hu => by
      have h2 : u = u0 := List.mem_singleton.mp hu
      subst h2
      exact ⟨⟨s2l "http", s2l "h", s2l "/", [], [], []⟩, rfl⟩)

/-- C7 counterexample: an extraction exception escapes the crawl loop
(`some ()` result) and is NOT counted in `pages_failed`, refuting "nothing
thrown below the Crawl Engine escapes past the page boundary". -/
theorem C7_counterexample :
    (runLoop envC67 stFresh).2.2 = some () ∧
    (runLoop envC67 stFresh).1.stats.pages_failed = 0 ∧
    failedCount (runLoop envC67 stFresh).2.1 = 0 := by
  rw [runC67_eval]
  exact ⟨rfl, rfl, rfl⟩

/-- C8 (amended): chunking the input with maxChars 50 and overlapChars 10
yields exactly ONE chunk — the two paragraphs joined by a newline (39
characters, within the 50 budget) — not two. -/
theorem C8_chunking :
    chunk_text (s2l "Para one text here.\n\nPara two also here.") 50 10 =
      [s2l "Para one text here.\nPara two also here."] := by
  rfl

/-- C8 counterexample: the chunk list for the claimed input has length 1,
refuting "exactly two chunks". -/
theorem C8_counterexample :
    (chunk_text (s2l "Para one text here.\n\nPara two also here.") 50 10).length = 1 ∧
    (chunk_text (s2l "Para one text here.\n\nPara two also here.") 50 10).length ≠ 2 := by
  constructor
  · rfl
  · intro h
    rw [show chunk_text (s2l "Para one text here.\n\nPara two also here.") 50 10 =
        [s2l "Para one text here.\nPara two also here."] from rfl] at h
    cases h

/-- C9 (amended): URL normalization is idempotent on every URL whose parse
has an allowed scheme, a nonempty delimiter-free netloc, an absolute (or
empty) path free of `#?;` and tab/CR/LF, and no params; and any two URLs
whose parses agree on scheme, netloc, path and params (differing only in
query and/or fragment) normalize identically.  Unrestricted idempotence is
false (see the counterexample: CPython 3.11's urlunsplit drops the `//`
when the netloc is empty and the path starts with `//`). -/
theorem C9_normalize_idem_and_query_fragment :
    (∀ (nOK : Str → Bool) (u v : Str) (p : Parsed),
      urlparseE nOK u = .ok p →
      ALLOWED_SCHEMES.contains p.scheme = true →
      p.netloc ≠ [] →
      p.netloc.all (fun c => ¬ isNetlocStop c ∧ ¬ isUnsafeChar c) = true →
      (p.path = [] ∨ p.path.take 1 = ['/']) →
      p.path.all (fun c => ¬ c = '#' ∧ ¬ c = '?' ∧ ¬ c = ';' ∧ ¬ isUnsafeChar c) = true →
      p.params = [] →
      normalize_url nOK u = .ok v →
      normalize_url nOK v = .ok v) ∧
    (∀ (nOK : Str → Bool) (u1 u2 : Str) (p1 p2 : Parsed),
      urlparseE nOK u1 = .ok p1 → urlparseE nOK u2 = .ok p2 →
      p1.scheme = p2.scheme → p1.netloc = p2.netloc →
      p1.path = p2.path → p1.params = p2.params →
      normalize_url nOK u1 = normalize_url nOK u2) :=
  ⟨normalize_url_idem, normalize_url_qf⟩

/-- C9 witness: idempotence on a concrete clean URL and query/fragment
insensitivity on a concrete pair. -/
theorem C9_witness :
    normalize_url nTrue (s2l "http://h/a.b") = .ok (s2l "http://h/a.b") ∧
    normalize_url nTrue (s2l "http://h/a.b?q=1") = normalize_url nTrue (s2l "http://h/a.b#f") :=
  ⟨C9_normalize_idem_and_query_fragment.1 nTrue (s2l "http://h/a.b") (s2l "http://h/a.b")
      ⟨s2l "http", s2l "h", s2l "/a.b", [], [], []⟩ (by rfl) (by decide) (by decide)
      (by decide) (Or.inr (by decide)) (by decide) rfl (by rfl),
   C9_normalize_idem_and_query_fragment.2 nTrue (s2l "http://h/a.b?q=1") (s2l "http://h/a.b#f")
      ⟨s2l "http", s2l "h", s2l "/a.b", [], s2l "q=1", []⟩
      ⟨s2l "http", s2l "h", s2l "/a.b", [], [], s2l "f"⟩
      (by rfl) (by rfl) rfl rfl rfl rfl⟩

/-- C9 counterexample: `http:////a.b` normalizes to `http://a.b`, which
normalizes to the different string `http://a.b/` — normalization is not
idempotent. -/
theorem C9_counterexample :
    normalize_url nTrue (s2l "http:////a.b") = .ok (s2l "http://a.b") ∧
    normalize_url nTrue (s2l "http://a.b") = .ok (s2l "http://a.b/") ∧
    s2l "http://a.b" ≠ s2l "http://a.b/" := ⟨by rfl, by rfl, by decide⟩

/-- C10 (confirmed): whenever `url_to_relpath` succeeds, the produced
relative path is non-empty, has no leading slash and contains no ".."
substring, so the html/ and text/ artifact paths derived from it cannot
escape the output directory by path traversal. -/
theorem C10_relpath_traversal_safe (nOK : Str → Bool) (url base_path rel : Str)
    (h : url_to_relpath nOK url base_path = .ok rel) :
    rel ≠ [] ∧ rel.head? ≠ some '/' ∧ containsDotDot rel = false :=
  url_to_relpath_safe nOK url base_path rel h

/-- C10 witness: the URL path `/a..b` maps to the safe relative path
`a_b`. -/
theorem C10_witness :
    s2l "a_b" ≠ [] ∧ (s2l "a_b").head? ≠ some '/' ∧ containsDotDot (s2l "a_b") = false :=
  C10_relpath_traversal_safe nTrue (s2l "http://h/a..b") (s2l "/") (s2l "a_b") (by rfl)
